import Mathlib

/-!
# astranet service registry

A shallow embedding of the two registries of the repository,
`src/route/registry.go` (the caching variant, package `route`) and
`src/registry/registry.go` (the plain variant, package `registry`).

* The two-dimensional index (`BTree2D`) is a collaborator whose code is not
  part of the two source files; it is modelled from the specification.
* `uint64` counters are natural numbers reduced modulo `2 ^ 64`.
* The locks and the condition variable do not appear in the sequential
  model; the interleaving model at the end of the definitions splits `Push`
  and `Close` into their atomic steps.
-/

namespace astranet

/-- The modulus of a `uint64`. -/
def u64 : Nat := 2 ^ 64

/-- The function `atomic.AddUint64`: the new value, wrapped to 64 bits. -/
def AddUint64 (v delta : Nat) : Nat := (v + delta) % u64

/-- The function `atomic.CompareAndSwapUint64`: the stored value and whether
the swap took place. -/
def CompareAndSwapUint64 (v old new : Nat) : Nat × Bool :=
  if v = old then (new, true) else (v, false)

/-- A finalizer action (`func()`), identified by a number. -/
abbrev Action := Nat

/-- An endpoint, an opaque comparable value (`RouteInfo` in package `route`,
`generic.U` in package `registry`). -/
abbrev RouteInfo := Nat

/-- An observable effect of a registry operation. -/
inductive Event where
  /-- finalizer `a` of the pair `(k1, k2)` was invoked -/
  | finalized (k1 : Nat) (k2 : RouteInfo) (a : Action)
  /-- the caller's callback number `cb` was invoked on `(k1, k2)` -/
  | called (cb : Nat) (k1 : Nat) (k2 : RouteInfo)
  deriving DecidableEq

/-- One entry of the index: the pair and the finalizers attached to it. -/
structure Entry where
  k1 : Nat
  k2 : RouteInfo
  fins : List Action
  deriving DecidableEq

/-- The finalizer invocations caused by the physical removal of an entry. -/
def Entry.finalize (e : Entry) : List Event :=
  e.fins.map (fun a => Event.finalized e.k1 e.k2 a)

/-- Modelled from the spec: the associative index (type `BTree2D`, declared
outside the two source files), an ordered two-level map from
(serviceID, endpoint) to an endpoint record. It is kept as the list of its
entries in ascending order of (serviceID, endpoint). -/
abbrev BTree2D := List Entry

/-- Modelled from the spec: `BTreeNew` / `btree2d.NewBTree2D`, the empty
index. -/
def BTreeNew : BTree2D := []

/-- Whether the pair `(k1, k2)` is stored in the index. -/
def BTree2D.has (t : BTree2D) (k1 : Nat) (k2 : RouteInfo) : Bool :=
  t.any (fun e => decide (e.k1 = k1 ∧ e.k2 = k2))

/-- Modelled from the spec: `Put(serviceID, endpoint, finalizers...)`, point
insert. A duplicate insert is rejected: the stored entry stays as it is and
the new finalizers are neither attached nor invoked. -/
def BTree2D.Put (t : BTree2D) (k1 : Nat) (k2 : RouteInfo) (fins : List Action) : BTree2D :=
  match t with
  | [] => [⟨k1, k2, fins⟩]
  | e :: rest =>
    if e.k1 = k1 ∧ e.k2 = k2 then e :: rest
    else if k1 < e.k1 ∨ (k1 = e.k1 ∧ k2 < e.k2) then ⟨k1, k2, fins⟩ :: e :: rest
    else e :: BTree2D.Put rest k1 k2 fins

/-- Modelled from the spec: `Delete(serviceID, endpoint)`, point delete. The
finalizers of a removed entry are invoked as part of the removal. -/
def BTree2D.Delete (t : BTree2D) (k1 : Nat) (k2 : RouteInfo) : BTree2D × List Event :=
  (t.filter (fun e => !decide (e.k1 = k1 ∧ e.k2 = k2)),
   (t.filter (fun e => decide (e.k1 = k1 ∧ e.k2 = k2))).flatMap Entry.finalize)

/-- Modelled from the spec: `ForEach2(serviceID, visit(endpoint) → stop)`,
the range query with early stop, threading the visitor's state. -/
def BTree2D.ForEach2 {σ : Type} (t : BTree2D) (k1 : Nat)
    (visit : σ → RouteInfo → σ × Bool) (s : σ) : σ :=
  match t with
  | [] => s
  | e :: rest =>
    if e.k1 = k1 then
      if (visit s e.k2).2 then (visit s e.k2).1
      else BTree2D.ForEach2 rest k1 visit (visit s e.k2).1
    else BTree2D.ForEach2 rest k1 visit s

/-- Modelled from the spec: `Sync(otherIndex, onAdd, onDelete)`, the
structural diff. Every pair of `self` that `other` lacks is removed (its
finalizers run, then `onDelete`); every pair of `other` that `self` lacks is
inserted (then `onAdd`). -/
def BTree2D.Sync (self other : BTree2D)
    (onAdd onDelete : Nat → RouteInfo → List Event) : BTree2D × List Event :=
  let gone := self.filter (fun e => !BTree2D.has other e.k1 e.k2)
  let kept := self.filter (fun e => BTree2D.has other e.k1 e.k2)
  let fresh := other.filter (fun e => !BTree2D.has self e.k1 e.k2)
  (fresh.foldl (fun t e => BTree2D.Put t e.k1 e.k2 []) kept,
   gone.flatMap (fun e => e.finalize ++ onDelete e.k1 e.k2)
     ++ fresh.flatMap (fun e => onAdd e.k1 e.k2))

/-- A runtime panic of the Go program. -/
inductive Panic where
  /-- index out of range `[idx]` with length `len` -/
  | indexOutOfRange (idx : Int) (len : Nat)
  deriving DecidableEq

/-! ## Package `route`: the caching registry -/

namespace route

/-- A selection policy (interface `Selector`). The interface value has an
identity, used in cache keys; the policy may keep state between calls. -/
structure Selector where
  ident : Nat
  state : Nat
  pick : Nat → List RouteInfo → Int × Bool × Nat

/-- The method `Select(pool)`: chosen index, cacheable flag, and the policy
after the call. -/
def Selector.Select (s : Selector) (pool : List RouteInfo) : (Int × Bool) × Selector :=
  (((s.pick s.state pool).1, (s.pick s.state pool).2.1),
   { s with state := (s.pick s.state pool).2.2 })

/-- A reduction policy (interface `Reducer`), a pure transformation. -/
structure Reducer where
  ident : Nat
  Reduce : List RouteInfo → List RouteInfo

/-- The struct `rCacheKey`; the two policies are compared by identity, a nil
reducer is `none`. -/
structure rCacheKey where
  sname : Nat
  s : Nat
  r : Option Nat
  deriving DecidableEq

/-- One cache generation, `map[rCacheKey]RouteInfo`. -/
abbrev Generation := rCacheKey → Option RouteInfo

/-- The struct `Registry`. The map `sCache` is a partial function from
revisions to generations; `initCtl` records whether the `sync.Once` fired. -/
structure Registry where
  sMap : BTree2D
  rRev : Nat
  closed : Nat
  initCtl : Bool
  sCache : Nat → Option Generation

/-- The zero value `var clean Registry`. -/
def Registry.zero : Registry :=
  { sMap := [], rRev := 0, closed := 0, initCtl := false, sCache := fun _ => none }

/-- The method `init`. -/
def Registry.init (self : Registry) : Registry :=
  if self.initCtl then self
  else { self with sMap := BTreeNew, sCache := fun _ => none, initCtl := true }

/-- The method `touch`. -/
def Registry.touch (self : Registry) : Registry :=
  let nVer := AddUint64 self.rRev 1
  let c1 : Nat → Option Generation :=
    match self.sCache nVer with
    | none => fun v => if v = nVer then some (fun _ => none) else self.sCache v
    | some _ => self.sCache
  { self with rRev := nVer, sCache := fun v => if v < nVer then none else c1 v }

/-- The method `Push`. -/
def Registry.Push (self : Registry) (id : Nat) (srv : RouteInfo) (action : List Action) :
    Registry :=
  let self := self.init
  let closed := self.closed
  if closed > 0 then self
  else Registry.touch { self with sMap := BTree2D.Put self.sMap id srv action }

/-- The method `Pop`, with the finalizers the removal invoked. -/
def Registry.Pop (self : Registry) (id : Nat) (srv : RouteInfo) : Registry × List Event :=
  let self := self.init
  (Registry.touch { self with sMap := (BTree2D.Delete self.sMap id srv).1 },
   (BTree2D.Delete self.sMap id srv).2)

/-- The candidate pool built by the `ForEach2` visitor of `DiscoverTimeout`. -/
def Registry.tPool (self : Registry) (sname : Nat) : List RouteInfo :=
  BTree2D.ForEach2 self.sMap sname (fun pool k2 => (pool ++ [k2], false)) []

/-- What a discovery call yields: either it returns `(srv, found)`, leaving
the registry and the selection policy in a new state, or it panics. -/
inductive Outcome where
  | ret (srv : RouteInfo) (found : Bool) (reg : Registry) (sel : Selector)
  | panic (p : Panic)

/-- The returned pair of an outcome, if the call returned. -/
def Outcome.value : Outcome → Option (RouteInfo × Bool)
  | .ret srv found _ _ => some (srv, found)
  | .panic _ => none

/-- The registry after the call, if the call returned. -/
def Outcome.reg : Outcome → Option Registry
  | .ret _ _ reg _ => some reg
  | .panic _ => none

/-- The selection policy after the call, if the call returned. -/
def Outcome.sel : Outcome → Option Selector
  | .ret _ _ _ sel => some sel
  | .panic _ => none

/-- The key `rCacheKey{sname, r, reducer}` built by `DiscoverTimeout`. -/
def rCacheKey.of (sname : Nat) (r : Selector) (reducer : Option Reducer) : rCacheKey :=
  ⟨sname, r.ident, reducer.map (fun x => x.ident)⟩

/-- The step `if reducer != nil { tPool = reducer.Reduce(tPool) }`. -/
def reduce (reducer : Option Reducer) (tPool : List RouteInfo) : List RouteInfo :=
  match reducer with
  | some rd => rd.Reduce tPool
  | none => tPool

/-- The cache write of `DiscoverTimeout` (the block under `if shouldCache`):
the entry is stored when the generation of `cVer` exists, else dropped. -/
def Registry.cacheStore (self : Registry) (cVer : Nat) (cKey : rCacheKey) (srv : RouteInfo) :
    Registry :=
  match self.sCache cVer with
  | some cGr =>
    { self with sCache := fun v =>
        if v = cVer then some (fun k => if k = cKey then some srv else cGr k)
        else self.sCache v }
  | none => self

/-- The cache lookup of `DiscoverTimeout` (the block under `sLock.RLock`). -/
def Registry.cacheLookup (self : Registry) (cVer : Nat) (cKey : rCacheKey) :
    Option RouteInfo :=
  match self.sCache cVer with
  | some cGr => cGr cKey
  | none => none

/-- One pass of the loop body of `DiscoverTimeout` up to the test of the
pool: `none` when the pool is empty (the caller then waits or gives up),
otherwise the outcome of the call. -/
def Registry.discoverPass (self : Registry) (r : Selector) (sname : Nat)
    (reducer : Option Reducer) : Option Outcome :=
  let cKey := rCacheKey.of sname r reducer
  let cVer := self.rRev
  match self.cacheLookup cVer cKey with
  | some srv => some (.ret srv true self r)
  | none =>
    let tPool := self.tPool sname
    if tPool.length = 0 then none
    else
      let tPool := reduce reducer tPool
      let tIdx := (r.Select tPool).1.1
      let shouldCache := (r.Select tPool).1.2
      match tPool[tIdx.toNat]? with
      | none => some (.panic (.indexOutOfRange tIdx tPool.length))
      | some srv =>
        if tIdx < 0 then some (.panic (.indexOutOfRange tIdx tPool.length))
        else
          let self := if shouldCache then self.cacheStore cVer cKey srv else self
          some (.ret srv true self (r.Select tPool).2)

/-- The loop of `DiscoverTimeout`. The argument counts the ticks left before
`stopAt`; with no other caller running, a wait on the condition variable
ends after at least one tick with the registry as it was. -/
def Registry.discoverLoop (self : Registry) (r : Selector) (sname : Nat)
    (reducer : Option Reducer) : Nat → Outcome
  | 0 =>
    match Registry.discoverPass self r sname reducer with
    | some out => out
    | none => .ret 0 false self r
  | timeLeft + 1 =>
    match Registry.discoverPass self r sname reducer with
    | some out => out
    | none => Registry.discoverLoop self r sname reducer timeLeft

/-- The method `DiscoverTimeout`; `wait` is the duration in ticks. -/
def Registry.DiscoverTimeout (self : Registry) (r : Selector) (sname : Nat) (wait : Nat)
    (reducer : Option Reducer) : Outcome :=
  Registry.discoverLoop self.init r sname reducer wait

/-- The method `Discover`. -/
def Registry.Discover (self : Registry) (r : Selector) (sname : Nat)
    (reducer : Option Reducer) : Outcome :=
  Registry.DiscoverTimeout self.init r sname 0 reducer

/-- The method `Sync`; a nil callback is `none`. -/
def Registry.Sync (self other : Registry)
    (onAdd onDelete : Option (Nat → RouteInfo → List Event)) :
    Registry × Registry × List Event :=
  let self := self.init
  let other := other.init
  let res := BTree2D.Sync self.sMap other.sMap
    (fun k1 k2 => match onAdd with
      | some f => f k1 k2
      | none => [])
    (fun k1 k2 => match onDelete with
      | some f => f k1 k2
      | none => [])
  ({ self with sMap := res.1 }, other, res.2)

/-- One pass of the loop body of `Close`: the registry after the pass, the
events of the pass, and the value of `keep`. -/
def Registry.closePass (self : Registry) : Registry × List Event × Bool :=
  let last := self.rRev
  let synced := Registry.Sync self Registry.zero none none
  let self := synced.1
  let cas := CompareAndSwapUint64 self.rRev last last
  let self := { self with rRev := cas.1 }
  let self := if cas.2 then { self with closed := AddUint64 self.closed 1 } else self
  (self, synced.2.2, self.closed == 0)

/-- The loop `for keep { ... }` of `Close`, run for at most `fuel` passes. -/
def Registry.closeLoop : Nat → Registry → List Event → Option (Registry × List Event)
  | 0, _, _ => none
  | fuel + 1, self, evs =>
    let pass := Registry.closePass self
    if pass.2.2 then Registry.closeLoop fuel pass.1 (evs ++ pass.2.1)
    else some (pass.1, evs ++ pass.2.1)

/-- The method `Close`: the drained registry and the events of the drain. -/
def Registry.Close (fuel : Nat) (self : Registry) : Option (Registry × List Event) :=
  (Registry.closeLoop fuel self []).map (fun p => (Registry.touch p.1, p.2))

/-- Modelled from the spec: the sequence an `Iter()` handle traverses (the
`Iterator` type is declared outside the two source files): the current
contents of the index, in order. -/
def Registry.Iter (self : Registry) : List (Nat × RouteInfo) :=
  self.init.sMap.map (fun e => (e.k1, e.k2))

end route

/-! ## Package `registry`: the plain registry -/

namespace registry

/-- A selection policy (interface `Selector`) of the plain variant: `Select`
yields the chosen index only. -/
structure Selector where
  state : Nat
  pick : Nat → List RouteInfo → Int × Nat

/-- The method `Select(pool)`: the chosen index and the policy after the
call. -/
def Selector.Select (s : Selector) (pool : List RouteInfo) : Int × Selector :=
  ((s.pick s.state pool).1, { s with state := (s.pick s.state pool).2 })

/-- The struct `Registry` of the plain variant. -/
structure Registry where
  sMap : BTree2D
  rRev : Nat
  closed : Nat
  initCtl : Bool

/-- The zero value `var clean Registry`. -/
def Registry.zero : Registry :=
  { sMap := [], rRev := 0, closed := 0, initCtl := false }

/-- The method `init`. -/
def Registry.init (self : Registry) : Registry :=
  if self.initCtl then self
  else { self with sMap := BTreeNew, initCtl := true }

/-- The method `touch`. -/
def Registry.touch (self : Registry) : Registry :=
  { self with rRev := AddUint64 self.rRev 1 }

/-- The method `Push`. -/
def Registry.Push (self : Registry) (id : Nat) (srv : RouteInfo) (action : List Action) :
    Registry :=
  let self := self.init
  let closed := self.closed
  if closed > 0 then self
  else
    let u := action.foldl (fun fins act => fins ++ [act]) []
    Registry.touch { self with sMap := BTree2D.Put self.sMap id srv u }

/-- The method `Pop`, with the finalizers the removal invoked. -/
def Registry.Pop (self : Registry) (id : Nat) (srv : RouteInfo) : Registry × List Event :=
  let self := self.init
  (Registry.touch { self with sMap := (BTree2D.Delete self.sMap id srv).1 },
   (BTree2D.Delete self.sMap id srv).2)

/-- The candidate pool built by the `ForEach2` visitor of `DiscoverTimeout`. -/
def Registry.tPool (self : Registry) (sname : Nat) : List RouteInfo :=
  BTree2D.ForEach2 self.sMap sname (fun pool k2 => (pool ++ [k2], false)) []

/-- What a discovery call yields: it returns `(srv, found)` and leaves the
selection policy in a new state, or it panics. -/
inductive Outcome where
  | ret (srv : RouteInfo) (found : Bool) (sel : Selector)
  | panic (p : Panic)

/-- The returned pair of an outcome, if the call returned. -/
def Outcome.value : Outcome → Option (RouteInfo × Bool)
  | .ret srv found _ => some (srv, found)
  | .panic _ => none

/-- One pass of the loop body of `DiscoverTimeout` up to the test of the
pool: `none` when the pool is empty, otherwise the outcome of the call. -/
def Registry.discoverPass (self : Registry) (r : Selector) (sname : Nat) : Option Outcome :=
  let tPool := self.tPool sname
  if tPool.length = 0 then none
  else
    let tIdx := (r.Select tPool).1
    match tPool[tIdx.toNat]? with
    | none => some (.panic (.indexOutOfRange tIdx tPool.length))
    | some srv =>
      if tIdx < 0 then some (.panic (.indexOutOfRange tIdx tPool.length))
      else some (.ret srv true (r.Select tPool).2)

/-- The loop of `DiscoverTimeout`; the argument counts the ticks left before
`stopAt`. -/
def Registry.discoverLoop (self : Registry) (r : Selector) (sname : Nat) : Nat → Outcome
  | 0 =>
    match Registry.discoverPass self r sname with
    | some out => out
    | none => .ret 0 false r
  | timeLeft + 1 =>
    match Registry.discoverPass self r sname with
    | some out => out
    | none => Registry.discoverLoop self r sname timeLeft

/-- The method `DiscoverTimeout`; `wait` is the duration in ticks. -/
def Registry.DiscoverTimeout (self : Registry) (r : Selector) (sname : Nat) (wait : Nat) :
    Outcome :=
  Registry.discoverLoop self.init r sname wait

/-- The method `Discover`. -/
def Registry.Discover (self : Registry) (r : Selector) (sname : Nat) : Outcome :=
  Registry.DiscoverTimeout self.init r sname 0

/-- The method `Sync`; a nil callback is `none`. -/
def Registry.Sync (self other : Registry)
    (onAdd onDelete : Option (Nat → RouteInfo → List Event)) :
    Registry × Registry × List Event :=
  let self := self.init
  let other := other.init
  let res := BTree2D.Sync self.sMap other.sMap
    (fun k1 k2 => match onAdd with
      | some f => f k1 k2
      | none => [])
    (fun k1 k2 => match onDelete with
      | some f => f k1 k2
      | none => [])
  ({ self with sMap := res.1 }, other, res.2)

/-- One pass of the loop body of `Close`: the registry after the pass, the
events of the pass, and the value of `keep`. -/
def Registry.closePass (self : Registry) : Registry × List Event × Bool :=
  let last := self.rRev
  let synced := Registry.Sync self Registry.zero none none
  let self := synced.1
  let cas := CompareAndSwapUint64 self.rRev last last
  let self := { self with rRev := cas.1 }
  let self := if cas.2 then { self with closed := AddUint64 self.closed 1 } else self
  (self, synced.2.2, self.closed == 0)

/-- The loop `for keep { ... }` of `Close`, run for at most `fuel` passes. -/
def Registry.closeLoop : Nat → Registry → List Event → Option (Registry × List Event)
  | 0, _, _ => none
  | fuel + 1, self, evs =>
    let pass := Registry.closePass self
    if pass.2.2 then Registry.closeLoop fuel pass.1 (evs ++ pass.2.1)
    else some (pass.1, evs ++ pass.2.1)

/-- The method `Close`: the drained registry and the events of the drain. -/
def Registry.Close (fuel : Nat) (self : Registry) : Option (Registry × List Event) :=
  (Registry.closeLoop fuel self []).map (fun p => (Registry.touch p.1, p.2))

/-- Modelled from the spec: the sequence an `Iter()` handle traverses (the
`Iterator` type is declared outside the two source files): the current
contents of the index, in order. -/
def Registry.Iter (self : Registry) : List (Nat × RouteInfo) :=
  self.init.sMap.map (fun e => (e.k1, e.k2))

end registry

/-! ## Sequences of mutations -/

/-- A call of `Push` or of `Pop`. -/
inductive Mutation where
  | push (id : Nat) (srv : RouteInfo) (action : List Action)
  | pop (id : Nat) (srv : RouteInfo)
  deriving DecidableEq

/-- The caching registry after one mutation. -/
def route.Registry.mutate (self : route.Registry) : Mutation → route.Registry
  | .push id srv action => self.Push id srv action
  | .pop id srv => (self.Pop id srv).1

/-- The caching registry after a sequence of mutations. -/
def route.Registry.mutateAll (self : route.Registry) (ms : List Mutation) : route.Registry :=
  ms.foldl route.Registry.mutate self

/-- The plain registry after one mutation. -/
def registry.Registry.mutate (self : registry.Registry) : Mutation → registry.Registry
  | .push id srv action => self.Push id srv action
  | .pop id srv => (self.Pop id srv).1

/-- The plain registry after a sequence of mutations. -/
def registry.Registry.mutateAll (self : registry.Registry) (ms : List Mutation) :
    registry.Registry :=
  ms.foldl registry.Registry.mutate self

/-! ## Policies used in examples, and the contract of a selection policy -/

/-- The contract of a selection policy of the caching variant: on a non-empty
pool the chosen index lies in `[0, len(pool))`, whatever the policy's state. -/
def route.Selector.InRange (s : route.Selector) : Prop :=
  ∀ (st : Nat) (pool : List RouteInfo), pool ≠ [] →
    0 ≤ (s.pick st pool).1 ∧ (s.pick st pool).1 < pool.length

/-- The contract of a selection policy of the plain variant. -/
def registry.Selector.InRange (s : registry.Selector) : Prop :=
  ∀ (st : Nat) (pool : List RouteInfo), pool ≠ [] →
    0 ≤ (s.pick st pool).1 ∧ (s.pick st pool).1 < pool.length

/-- A stateless policy: always the first endpoint, never cacheable. -/
def route.firstSelector : route.Selector :=
  { ident := 0, state := 0, pick := fun _ _ => (0, false, 0) }

/-- A stateful policy that reports cacheable: round robin over the pool. -/
def route.roundRobin : route.Selector :=
  { ident := 1, state := 0,
    pick := fun st pool => (((st % pool.length : Nat) : Int), true, st + 1) }

/-- A reduction policy that filters out every endpoint. -/
def route.dropAll : route.Reducer :=
  { ident := 0, Reduce := fun _ => [] }

/-- The plain variant's first-endpoint policy. -/
def registry.firstSelector : registry.Selector :=
  { state := 0, pick := fun _ _ => (0, 0) }

/-- The panic of an outcome, if the call panicked. -/
def route.Outcome.failure : route.Outcome → Option Panic
  | .ret _ _ _ _ => none
  | .panic p => some p

/-- The panic of an outcome of the plain variant, if the call panicked. -/
def registry.Outcome.failure : registry.Outcome → Option Panic
  | .ret _ _ _ => none
  | .panic p => some p

/-- The result cache holds exactly one generation, keyed by the current
revision, and that generation is empty. -/
def route.Registry.OneEmptyGeneration (r : route.Registry) : Prop :=
  ∀ v : Nat, r.sCache v = if v = r.rRev then some (fun _ => none) else none

/-- A caching registry at revision 1 that holds the pair (2, 20) with
finalizer 5 and whose current generation caches endpoint 99 for service 1
under the first-endpoint policy. -/
def route.sample : route.Registry :=
  { sMap := [⟨2, 20, [5]⟩], rRev := 1, closed := 0, initCtl := true,
    sCache := fun v =>
      if v = 1 then some (fun k => if k = ⟨1, 0, none⟩ then some 99 else none) else none }

/-- A plain registry at revision 1 that holds the pair (2, 20) with
finalizer 5. -/
def registry.sample : registry.Registry :=
  { sMap := [⟨2, 20, [5]⟩], rRev := 1, closed := 0, initCtl := true }

/-- Two consecutive `Discover` calls with the same arguments and nothing in
between: the second call runs on the registry and the selection policy as the
first call left them. The two returned pairs, if neither call panics. -/
def route.Registry.discoverTwice (self : route.Registry) (r : route.Selector) (sname : Nat)
    (reducer : Option route.Reducer) : Option ((RouteInfo × Bool) × (RouteInfo × Bool)) :=
  match self.Discover r sname reducer with
  | .ret srv found reg sel =>
    match reg.Discover sel sname reducer with
    | .ret srv2 found2 _ _ => some ((srv, found), (srv2, found2))
    | .panic _ => none
  | .panic _ => none

/-- A registry populated only by `Sync`: a fresh registry synchronised with
one that holds the endpoints 10 and 20 of service 1. -/
def route.syncedOnly : route.Registry :=
  (route.Registry.Sync route.Registry.zero
    { route.Registry.zero with sMap := [⟨1, 10, []⟩, ⟨1, 20, []⟩], initCtl := true }
    none none).1

/-- Every cache generation is keyed by a revision already reached, and every
entry of the current generation that was stored without a reduction policy
is an endpoint the index holds under the entry's service. -/
def route.Registry.CacheSound (r : route.Registry) : Prop :=
  ∀ (v : Nat) (cGr : route.Generation), r.sCache v = some cGr →
    v ≤ r.rRev ∧
    (v = r.rRev → ∀ (key : route.rCacheKey) (srv : RouteInfo),
      cGr key = some srv → key.r = none → srv ∈ r.tPool key.sname)

/-- The caching registries reached from a fresh one by `Push`, `Pop`, `Close`
and discovery calls that return; the number counts the mutating calls. -/
inductive route.Reachable : Nat → route.Registry → Prop where
  | fresh : route.Reachable 0 route.Registry.zero
  | push {n : Nat} {r : route.Registry} (id : Nat) (srv : RouteInfo) (action : List Action) :
      route.Reachable n r → route.Reachable (n + 1) (r.Push id srv action)
  | pop {n : Nat} {r : route.Registry} (id : Nat) (srv : RouteInfo) :
      route.Reachable n r → route.Reachable (n + 1) (r.Pop id srv).1
  | close {n : Nat} {r : route.Registry} (fuel : Nat) (p : route.Registry × List Event) :
      route.Reachable n r → r.Close fuel = some p → route.Reachable (n + 1) p.1
  | discover {n : Nat} {r : route.Registry} (sel : route.Selector) (s wait : Nat)
      (red : Option route.Reducer) (r' : route.Registry) :
      route.Reachable n r → (r.DiscoverTimeout sel s wait red).reg = some r' →
      route.Reachable n r'

/-- The registry of an outcome, or `d` if the call panicked. -/
def route.Outcome.regOr (d : route.Registry) : route.Outcome → route.Registry
  | .ret _ _ reg _ => reg
  | .panic _ => d

/-- A run: `Push(1, 10)`, `Push(1, 20)`, a `DiscoverTimeout` for service 1
under the round-robin policy (which caches endpoint 10), then
`Pop(1, 10)`. -/
def route.afterPop : route.Registry :=
  (route.Registry.Pop
    (route.Outcome.regOr route.Registry.zero
      (route.Registry.DiscoverTimeout ((route.Registry.zero.Push 1 10 []).Push 1 20 [])
        route.roundRobin 1 0 none))
    1 10).1

/-! ## Interleavings of `Close` with `Push` (package `route`)

Each thread is cut at its statements; a step runs one statement without
interruption, which is one of the executions the scheduler allows. -/

/-- Where a thread running `Push(id, srv, action...)` stands. -/
inductive route.PushPc where
  /-- before `self.init()` -/
  | atInit
  /-- before `closed = atomic.LoadUint64(&self.closed)` and the test on it -/
  | atLoadClosed
  /-- before `self.sMap.Put(id, srv, action...)` -/
  | atPut
  /-- before `self.touch()` -/
  | atTouch
  /-- returned -/
  | done
  deriving DecidableEq

/-- A thread running `Push(id, srv, action...)`. -/
structure route.PushThread where
  id : Nat
  srv : RouteInfo
  action : List Action
  pc : route.PushPc
  deriving DecidableEq

/-- One statement of `Push`. -/
def route.PushThread.step (t : route.PushThread) (reg : route.Registry) :
    route.PushThread × route.Registry :=
  match t.pc with
  | .atInit => ({ t with pc := .atLoadClosed }, reg.init)
  | .atLoadClosed =>
    if reg.closed > 0 then ({ t with pc := .done }, reg)
    else ({ t with pc := .atPut }, reg)
  | .atPut =>
    ({ t with pc := .atTouch },
     { reg with sMap := BTree2D.Put reg.sMap t.id t.srv t.action })
  | .atTouch => ({ t with pc := .done }, reg.touch)
  | .done => (t, reg)

/-- Where the thread running `Close()` stands. -/
inductive route.ClosePc where
  /-- before `last = atomic.LoadUint64(&self.rRev)` -/
  | atLoadRev
  /-- before `self.Sync(&clean, nil, nil)` -/
  | atSync
  /-- before `swapped = atomic.CompareAndSwapUint64(&self.rRev, last, last)` -/
  | atCas
  /-- before `if swapped { atomic.AddUint64(&self.closed, 1) }` -/
  | atAddClosed
  /-- before `keep = atomic.LoadUint64(&self.closed) == 0` -/
  | atLoadClosed
  /-- before `self.touch()` -/
  | atTouch
  /-- returned -/
  | done
  deriving DecidableEq

/-- The thread running `Close()`, with its locals `last` and `swapped`. -/
structure route.CloseThread where
  pc : route.ClosePc
  last : Nat
  swapped : Bool
  deriving DecidableEq

/-- One statement of `Close`, with the events it causes. -/
def route.CloseThread.step (t : route.CloseThread) (reg : route.Registry) :
    route.CloseThread × route.Registry × List Event :=
  match t.pc with
  | .atLoadRev => ({ t with pc := .atSync, last := reg.rRev }, reg, [])
  | .atSync =>
    ({ t with pc := .atCas }, (reg.Sync route.Registry.zero none none).1,
     (reg.Sync route.Registry.zero none none).2.2)
  | .atCas =>
    ({ t with pc := .atAddClosed,
              swapped := (CompareAndSwapUint64 reg.rRev t.last t.last).2 },
     { reg with rRev := (CompareAndSwapUint64 reg.rRev t.last t.last).1 }, [])
  | .atAddClosed =>
    ({ t with pc := .atLoadClosed },
     if t.swapped then { reg with closed := AddUint64 reg.closed 1 } else reg, [])
  | .atLoadClosed =>
    if reg.closed == 0 then ({ t with pc := .atLoadRev }, reg, [])
    else ({ t with pc := .atTouch }, reg, [])
  | .atTouch => ({ t with pc := .done }, reg.touch, [])
  | .done => (t, reg, [])

/-- One registry shared by a thread in `Close` and threads in `Push`, and
the events so far. -/
structure route.System where
  reg : route.Registry
  events : List Event
  closer : route.CloseThread
  pushers : List route.PushThread

/-- The scheduler's choice: `none` runs the next statement of the closing
thread, `some i` the next statement of pushing thread `i`. -/
def route.System.step (sys : route.System) : Option Nat → route.System
  | none =>
    { sys with
      closer := (sys.closer.step sys.reg).1
      reg := (sys.closer.step sys.reg).2.1
      events := sys.events ++ (sys.closer.step sys.reg).2.2 }
  | some i =>
    match sys.pushers[i]? with
    | some t =>
      { sys with
        pushers := sys.pushers.set i (t.step sys.reg).1
        reg := (t.step sys.reg).2 }
    | none => sys

/-- The system after a schedule. -/
def route.System.run (sys : route.System) (schedule : List (Option Nat)) : route.System :=
  schedule.foldl route.System.step sys

/-- A fresh registry, a thread about to call `Close()` and a thread about to
call `Push(1, 10, f7)`. -/
def route.System.start : route.System :=
  { reg := route.Registry.zero, events := [],
    closer := { pc := .atLoadRev, last := 0, swapped := false },
    pushers := [{ id := 1, srv := 10, action := [7], pc := .atInit }] }

/-- The pushing thread passes its test of the closed flag, the closing thread
then runs `Close()` to its return, and the pushing thread resumes. -/
def route.racySchedule : List (Option Nat) :=
  [some 0, some 0, none, none, none, none, none, none, some 0, some 0]

/-- The pushing thread runs `Push` to its return before `Close()` starts. -/
def route.pushFirstSchedule : List (Option Nat) :=
  [some 0, some 0, some 0, some 0, none, none, none, none, none, none]

/-- A run: `Push(1, 10, f7)`, a `Discover` for service 1 under the round-robin
policy (which caches endpoint 10), then a `Sync` with an empty registry,
which removes the pair. The registry after the run and the events of the
`Sync`. -/
def route.afterSync : route.Registry × List Event :=
  ((route.Registry.Sync
      (route.Outcome.regOr route.Registry.zero
        (route.Registry.Discover (route.Registry.zero.Push 1 10 [7]) route.roundRobin 1 none))
      route.Registry.zero none none).1,
   (route.Registry.Sync
      (route.Outcome.regOr route.Registry.zero
        (route.Registry.Discover (route.Registry.zero.Push 1 10 [7]) route.roundRobin 1 none))
      route.Registry.zero none none).2.2)

/-! ## Basic facts -/

theorem route_init_rRev (r : route.Registry) : r.init.rRev = r.rRev := by
  unfold route.Registry.init; split <;> rfl

theorem route_init_closed (r : route.Registry) : r.init.closed = r.closed := by
  unfold route.Registry.init; split <;> rfl

theorem route_init_of_initCtl (r : route.Registry) (h : r.initCtl = true) : r.init = r := by
  unfold route.Registry.init; simp [h]

theorem route_init_initCtl (r : route.Registry) : r.init.initCtl = true := by
  unfold route.Registry.init; split
  · assumption
  · rfl

theorem route_init_init (r : route.Registry) : r.init.init = r.init :=
  route_init_of_initCtl _ (route_init_initCtl r)

theorem registry_init_rRev (r : registry.Registry) : r.init.rRev = r.rRev := by
  unfold registry.Registry.init; split <;> rfl

theorem registry_init_closed (r : registry.Registry) : r.init.closed = r.closed := by
  unfold registry.Registry.init; split <;> rfl

theorem registry_init_of_initCtl (r : registry.Registry) (h : r.initCtl = true) :
    r.init = r := by
  unfold registry.Registry.init; simp [h]

theorem registry_init_initCtl (r : registry.Registry) : r.init.initCtl = true := by
  unfold registry.Registry.init; split
  · assumption
  · rfl

theorem AddUint64_lt (v d : Nat) : AddUint64 v d < u64 :=
  Nat.mod_lt _ (by unfold u64; positivity)

/-! ## The revision counter under `Push` and `Pop` -/

theorem route_touch_rRev (r : route.Registry) : r.touch.rRev = AddUint64 r.rRev 1 := rfl

theorem route_touch_closed (r : route.Registry) : r.touch.closed = r.closed := rfl

theorem route_Pop_rRev (r : route.Registry) (id : Nat) (srv : RouteInfo) :
    (r.Pop id srv).1.rRev = AddUint64 r.rRev 1 := by
  simp [route.Registry.Pop, route_touch_rRev, route_init_rRev]

theorem route_Pop_closed (r : route.Registry) (id : Nat) (srv : RouteInfo) :
    (r.Pop id srv).1.closed = r.closed := by
  simp [route.Registry.Pop, route_touch_closed, route_init_closed]

theorem route_Push_closed (r : route.Registry) (id : Nat) (srv : RouteInfo)
    (action : List Action) : (r.Push id srv action).closed = r.closed := by
  unfold route.Registry.Push
  simp only []
  split
  · exact route_init_closed r
  · simp [route_touch_closed, route_init_closed]

theorem route_Push_rRev_open (r : route.Registry) (id : Nat) (srv : RouteInfo)
    (action : List Action) (h : r.closed = 0) :
    (r.Push id srv action).rRev = AddUint64 r.rRev 1 := by
  unfold route.Registry.Push
  simp [route_init_closed, h, route_touch_rRev, route_init_rRev]

theorem route_Push_rRev_closed (r : route.Registry) (id : Nat) (srv : RouteInfo)
    (action : List Action) (h : 0 < r.closed) :
    (r.Push id srv action).rRev = r.rRev := by
  unfold route.Registry.Push
  simp [route_init_closed, h, route_init_rRev]

theorem registry_touch_rRev (r : registry.Registry) : r.touch.rRev = AddUint64 r.rRev 1 := rfl

theorem registry_touch_closed (r : registry.Registry) : r.touch.closed = r.closed := rfl

theorem registry_Pop_rRev (r : registry.Registry) (id : Nat) (srv : RouteInfo) :
    (r.Pop id srv).1.rRev = AddUint64 r.rRev 1 := by
  simp [registry.Registry.Pop, registry_touch_rRev, registry_init_rRev]

theorem registry_Pop_closed (r : registry.Registry) (id : Nat) (srv : RouteInfo) :
    (r.Pop id srv).1.closed = r.closed := by
  simp [registry.Registry.Pop, registry_touch_closed, registry_init_closed]

theorem registry_Push_closed (r : registry.Registry) (id : Nat) (srv : RouteInfo)
    (action : List Action) : (r.Push id srv action).closed = r.closed := by
  unfold registry.Registry.Push
  simp only []
  split
  · exact registry_init_closed r
  · simp [registry_touch_closed, registry_init_closed]

theorem registry_Push_rRev_open (r : registry.Registry) (id : Nat) (srv : RouteInfo)
    (action : List Action) (h : r.closed = 0) :
    (r.Push id srv action).rRev = AddUint64 r.rRev 1 := by
  unfold registry.Registry.Push
  simp [registry_init_closed, h, registry_touch_rRev, registry_init_rRev]

theorem registry_Push_rRev_closed (r : registry.Registry) (id : Nat) (srv : RouteInfo)
    (action : List Action) (h : 0 < r.closed) :
    (r.Push id srv action).rRev = r.rRev := by
  unfold registry.Registry.Push
  simp [registry_init_closed, h, registry_init_rRev]

theorem route_mutate_open (r : route.Registry) (m : Mutation) (h : r.closed = 0) :
    (r.mutate m).closed = 0 ∧ (r.mutate m).rRev = AddUint64 r.rRev 1 := by
  cases m with
  | push id srv action =>
    exact ⟨(route_Push_closed r id srv action).trans h, route_Push_rRev_open r id srv action h⟩
  | pop id srv =>
    exact ⟨(route_Pop_closed r id srv).trans h, route_Pop_rRev r id srv⟩

theorem registry_mutate_open (r : registry.Registry) (m : Mutation) (h : r.closed = 0) :
    (r.mutate m).closed = 0 ∧ (r.mutate m).rRev = AddUint64 r.rRev 1 := by
  cases m with
  | push id srv action =>
    exact ⟨(registry_Push_closed r id srv action).trans h,
      registry_Push_rRev_open r id srv action h⟩
  | pop id srv =>
    exact ⟨(registry_Pop_closed r id srv).trans h, registry_Pop_rRev r id srv⟩

theorem route_mutateAll_rRev (ms : List Mutation) :
    ∀ r : route.Registry, r.closed = 0 → r.rRev < u64 →
      (r.mutateAll ms).rRev = (r.rRev + ms.length) % u64 := by
  induction ms with
  | nil => intro r _ hb; simp [route.Registry.mutateAll, Nat.mod_eq_of_lt hb]
  | cons m ms ih =>
    intro r hc _
    have hm := route_mutate_open r m hc
    have := ih (r.mutate m) hm.1 (hm.2 ▸ AddUint64_lt _ _)
    simp only [route.Registry.mutateAll, List.foldl_cons, List.length_cons] at this ⊢
    rw [this, hm.2]
    unfold AddUint64
    rw [Nat.mod_add_mod]
    congr 1; omega

theorem registry_mutateAll_rRev (ms : List Mutation) :
    ∀ r : registry.Registry, r.closed = 0 → r.rRev < u64 →
      (r.mutateAll ms).rRev = (r.rRev + ms.length) % u64 := by
  induction ms with
  | nil => intro r _ hb; simp [registry.Registry.mutateAll, Nat.mod_eq_of_lt hb]
  | cons m ms ih =>
    intro r hc _
    have hm := registry_mutate_open r m hc
    have := ih (r.mutate m) hm.1 (hm.2 ▸ AddUint64_lt _ _)
    simp only [registry.Registry.mutateAll, List.foldl_cons, List.length_cons] at this ⊢
    rw [this, hm.2]
    unfold AddUint64
    rw [Nat.mod_add_mod]
    congr 1; omega

/-- C1 (as stated, refuted): on a closed registry a `Push` is a call among
the N of the sequence that does not raise the revision counter. -/
theorem C1_counterexample :
    ¬ (∀ (r : route.Registry) (ms : List Mutation),
        (r.mutateAll ms).rRev = r.rRev + ms.length) := by
  intro h
  have := h { route.Registry.zero with closed := 1, initCtl := true } [Mutation.push 1 10 []]
  revert this
  decide

/-- C1 (amended): in either variant, on a registry that is not closed the
revision counter after N `Push` and `Pop` calls is the counter before plus N,
modulo `2 ^ 64`; a single `Pop` raises it by one (modulo `2 ^ 64`) in every
state, also when the pair is absent; a `Push` raises it by one on a registry
that is not closed and leaves it unchanged on a closed one. -/
theorem C1_revision_after_mutations (r : route.Registry) (q : registry.Registry)
    (ms : List Mutation) (hr : r.closed = 0) (hq : q.closed = 0)
    (hrb : r.rRev < u64) (hqb : q.rRev < u64) :
    (r.mutateAll ms).rRev = (r.rRev + ms.length) % u64
    ∧ (q.mutateAll ms).rRev = (q.rRev + ms.length) % u64
    ∧ (∀ (p : route.Registry) id srv, (p.Pop id srv).1.rRev = (p.rRev + 1) % u64)
    ∧ (∀ (p : registry.Registry) id srv, (p.Pop id srv).1.rRev = (p.rRev + 1) % u64)
    ∧ (∀ id srv action, (r.Push id srv action).rRev = (r.rRev + 1) % u64)
    ∧ (∀ id srv action, (q.Push id srv action).rRev = (q.rRev + 1) % u64)
    ∧ (∀ (p : route.Registry) id srv action, 0 < p.closed →
        (p.Push id srv action).rRev = p.rRev)
    ∧ (∀ (p : registry.Registry) id srv action, 0 < p.closed →
        (p.Push id srv action).rRev = p.rRev) :=
  ⟨route_mutateAll_rRev ms r hr hrb, registry_mutateAll_rRev ms q hq hqb,
   fun p id srv => route_Pop_rRev p id srv,
   fun p id srv => registry_Pop_rRev p id srv,
   fun id srv action => route_Push_rRev_open r id srv action hr,
   fun id srv action => registry_Push_rRev_open q id srv action hq,
   fun p id srv action h => route_Push_rRev_closed p id srv action h,
   fun p id srv action h => registry_Push_rRev_closed p id srv action h⟩

/-- Witness of C1 (amended): a `Push` and a `Pop` of an absent pair on a
fresh registry leave the revision counter at 2, in both variants. -/
theorem C1_revision_after_mutations_witness :
    (route.Registry.zero.mutateAll [Mutation.push 1 10 [], Mutation.pop 2 20]).rRev = 2
    ∧ (registry.Registry.zero.mutateAll [Mutation.push 1 10 [], Mutation.pop 2 20]).rRev = 2 := by
  have h := C1_revision_after_mutations route.Registry.zero registry.Registry.zero
    [Mutation.push 1 10 [], Mutation.pop 2 20] rfl rfl (by decide) (by decide)
  exact ⟨h.1.trans (by decide), h.2.1.trans (by decide)⟩

/-! ## `Close` in the sequential setting -/

theorem BTree2D_Sync_nil (t : BTree2D) (f g : Nat → RouteInfo → List Event) :
    BTree2D.Sync t [] f g = ([], t.flatMap (fun e => e.finalize ++ g e.k1 e.k2)) := by
  simp [BTree2D.Sync, BTree2D.has]

theorem route_zero_init_sMap : route.Registry.zero.init.sMap = [] := rfl

theorem registry_zero_init_sMap : registry.Registry.zero.init.sMap = [] := rfl

theorem route_closePass_eq (r : route.Registry) :
    r.closePass =
      ({ r.init with sMap := [], closed := AddUint64 r.closed 1 },
       r.init.sMap.flatMap Entry.finalize, AddUint64 r.closed 1 == 0) := by
  simp [route.Registry.closePass, route.Registry.Sync, BTree2D_Sync_nil,
    CompareAndSwapUint64, route_init_closed, route_init_rRev, route_zero_init_sMap]

theorem registry_closePass_eq (r : registry.Registry) :
    r.closePass =
      ({ r.init with sMap := [], closed := AddUint64 r.closed 1 },
       r.init.sMap.flatMap Entry.finalize, AddUint64 r.closed 1 == 0) := by
  simp [registry.Registry.closePass, registry.Registry.Sync, BTree2D_Sync_nil,
    CompareAndSwapUint64, registry_init_closed, registry_init_rRev, registry_zero_init_sMap]

theorem AddUint64_zero_one : AddUint64 0 1 = 1 := by decide

theorem route_closeLoop_succ (fuel : Nat) (r : route.Registry) (evs : List Event) :
    route.Registry.closeLoop (fuel + 1) r evs =
      if r.closePass.2.2 then route.Registry.closeLoop fuel r.closePass.1 (evs ++ r.closePass.2.1)
      else some (r.closePass.1, evs ++ r.closePass.2.1) := rfl

theorem route_closeLoop_drained (p : route.Registry) (hi : p.initCtl = true)
    (hs : p.sMap = []) (hc : p.closed = 0) (n : Nat) (evs : List Event) :
    route.Registry.closeLoop (n + 1) p evs = some ({ p with closed := 1 }, evs) := by
  simp [route.Registry.closeLoop, route_closePass_eq, route_init_of_initCtl p hi, hs, hc,
    AddUint64_zero_one]

theorem route_closeLoop_spec (r : route.Registry) (evs : List Event) :
    ∃ r' : route.Registry,
      (∀ fuel, 2 ≤ fuel → route.Registry.closeLoop fuel r evs
          = some (r', evs ++ r.init.sMap.flatMap Entry.finalize))
      ∧ r'.sMap = [] ∧ 0 < r'.closed ∧ r'.initCtl = true ∧ r'.rRev = r.rRev
      ∧ r'.sCache = r.init.sCache := by
  by_cases h : AddUint64 r.closed 1 = 0
  · refine ⟨{ r.init with sMap := [], closed := 1 }, ?_, rfl, by simp,
      route_init_initCtl r, route_init_rRev r, rfl⟩
    intro fuel hf
    obtain ⟨n, rfl⟩ : ∃ n, fuel = n + 2 := ⟨fuel - 2, by omega⟩
    rw [route_closeLoop_succ, route_closePass_eq r]
    simp only [h, beq_self_eq_true, if_true]
    refine (route_closeLoop_drained _ ?_ ?_ ?_ n _).trans ?_
    · exact route_init_initCtl r
    · rfl
    · rfl
    · rfl
  · refine ⟨{ r.init with sMap := [], closed := AddUint64 r.closed 1 }, ?_, rfl,
      Nat.pos_of_ne_zero h, route_init_initCtl r, route_init_rRev r, rfl⟩
    intro fuel hf
    obtain ⟨n, rfl⟩ : ∃ n, fuel = n + 1 := ⟨fuel - 1, by omega⟩
    simp [route.Registry.closeLoop, route_closePass_eq r, h]

theorem registry_closeLoop_succ (fuel : Nat) (r : registry.Registry) (evs : List Event) :
    registry.Registry.closeLoop (fuel + 1) r evs =
      if r.closePass.2.2 then registry.Registry.closeLoop fuel r.closePass.1 (evs ++ r.closePass.2.1)
      else some (r.closePass.1, evs ++ r.closePass.2.1) := rfl

theorem registry_closeLoop_drained (p : registry.Registry) (hi : p.initCtl = true)
    (hs : p.sMap = []) (hc : p.closed = 0) (n : Nat) (evs : List Event) :
    registry.Registry.closeLoop (n + 1) p evs = some ({ p with closed := 1 }, evs) := by
  simp [registry.Registry.closeLoop, registry_closePass_eq, registry_init_of_initCtl p hi, hs, hc,
    AddUint64_zero_one]

theorem registry_closeLoop_spec (r : registry.Registry) (evs : List Event) :
    ∃ r' : registry.Registry,
      (∀ fuel, 2 ≤ fuel → registry.Registry.closeLoop fuel r evs
          = some (r', evs ++ r.init.sMap.flatMap Entry.finalize))
      ∧ r'.sMap = [] ∧ 0 < r'.closed ∧ r'.initCtl = true ∧ r'.rRev = r.rRev := by
  by_cases h : AddUint64 r.closed 1 = 0
  · refine ⟨{ r.init with sMap := [], closed := 1 }, ?_, rfl, by simp,
      registry_init_initCtl r, registry_init_rRev r⟩
    intro fuel hf
    obtain ⟨n, rfl⟩ : ∃ n, fuel = n + 2 := ⟨fuel - 2, by omega⟩
    rw [registry_closeLoop_succ, registry_closePass_eq r]
    simp only [h, beq_self_eq_true, if_true]
    refine (registry_closeLoop_drained _ ?_ ?_ ?_ n _).trans ?_
    · exact registry_init_initCtl r
    · rfl
    · rfl
    · rfl
  · refine ⟨{ r.init with sMap := [], closed := AddUint64 r.closed 1 }, ?_, rfl,
      Nat.pos_of_ne_zero h, registry_init_initCtl r, registry_init_rRev r⟩
    intro fuel hf
    obtain ⟨n, rfl⟩ : ∃ n, fuel = n + 1 := ⟨fuel - 1, by omega⟩
    simp [registry.Registry.closeLoop, registry_closePass_eq r, h]

theorem route_touch_sMap (r : route.Registry) : r.touch.sMap = r.sMap := rfl

theorem route_Close_spec (r : route.Registry) :
    ∃ r' : route.Registry,
      (∀ fuel, 2 ≤ fuel →
        r.Close fuel = some (r', r.init.sMap.flatMap Entry.finalize))
      ∧ r'.sMap = [] ∧ 0 < r'.closed ∧ r'.initCtl = true
      ∧ r'.rRev = AddUint64 r.rRev 1 := by
  obtain ⟨r1, hloop, hs, hc, hi, hrev, _⟩ := route_closeLoop_spec r []
  refine ⟨r1.touch, ?_, hs, hc, hi, ?_⟩
  · intro fuel hf
    simp [route.Registry.Close, hloop fuel hf]
  · rw [route_touch_rRev, hrev]

theorem registry_Close_spec (r : registry.Registry) :
    ∃ r' : registry.Registry,
      (∀ fuel, 2 ≤ fuel →
        r.Close fuel = some (r', r.init.sMap.flatMap Entry.finalize))
      ∧ r'.sMap = [] ∧ 0 < r'.closed ∧ r'.initCtl = true
      ∧ r'.rRev = AddUint64 r.rRev 1 := by
  obtain ⟨r1, hloop, hs, hc, hi, hrev⟩ := registry_closeLoop_spec r []
  refine ⟨r1.touch, ?_, hs, hc, hi, ?_⟩
  · intro fuel hf
    simp [registry.Registry.Close, hloop fuel hf]
  · rw [registry_touch_rRev, hrev]

theorem route_closeLoop_closed (fuel : Nat) :
    ∀ (r : route.Registry) (evs : List Event) (p : route.Registry × List Event),
      route.Registry.closeLoop fuel r evs = some p → 0 < p.1.closed ∧ p.1.initCtl = true := by
  induction fuel with
  | zero => intro r evs p h; simp [route.Registry.closeLoop] at h
  | succ n ih =>
    intro r evs p h
    rw [route_closeLoop_succ] at h
    split at h
    · exact ih _ _ _ h
    · rename_i hk
      rw [route_closePass_eq] at hk h
      simp only [Option.some.injEq] at h
      subst h
      refine ⟨Nat.pos_of_ne_zero ?_, route_init_initCtl r⟩
      simpa using hk

theorem route_Close_closed (fuel : Nat) (r : route.Registry) (p : route.Registry × List Event)
    (h : r.Close fuel = some p) : 0 < p.1.closed ∧ p.1.initCtl = true := by
  unfold route.Registry.Close at h
  cases hl : route.Registry.closeLoop fuel r [] with
  | none => simp [hl] at h
  | some p1 =>
    simp only [hl, Option.map_some', Option.some.injEq] at h
    subst h
    exact route_closeLoop_closed fuel r [] p1 hl

theorem route_Push_of_closed (r : route.Registry) (id : Nat) (srv : RouteInfo)
    (action : List Action) (hc : 0 < r.closed) (hi : r.initCtl = true) :
    r.Push id srv action = r := by
  unfold route.Registry.Push
  simp [route_init_of_initCtl r hi, hc]

theorem registry_closeLoop_closed (fuel : Nat) :
    ∀ (r : registry.Registry) (evs : List Event) (p : registry.Registry × List Event),
      registry.Registry.closeLoop fuel r evs = some p → 0 < p.1.closed ∧ p.1.initCtl = true := by
  induction fuel with
  | zero => intro r evs p h; simp [registry.Registry.closeLoop] at h
  | succ n ih =>
    intro r evs p h
    rw [registry_closeLoop_succ] at h
    split at h
    · exact ih _ _ _ h
    · rename_i hk
      rw [registry_closePass_eq] at hk h
      simp only [Option.some.injEq] at h
      subst h
      refine ⟨Nat.pos_of_ne_zero ?_, registry_init_initCtl r⟩
      simpa using hk

theorem registry_Close_closed (fuel : Nat) (r : registry.Registry) (p : registry.Registry × List Event)
    (h : r.Close fuel = some p) : 0 < p.1.closed ∧ p.1.initCtl = true := by
  unfold registry.Registry.Close at h
  cases hl : registry.Registry.closeLoop fuel r [] with
  | none => simp [hl] at h
  | some p1 =>
    simp only [hl, Option.map_some', Option.some.injEq] at h
    subst h
    exact registry_closeLoop_closed fuel r [] p1 hl

theorem registry_Push_of_closed (r : registry.Registry) (id : Nat) (srv : RouteInfo)
    (action : List Action) (hc : 0 < r.closed) (hi : r.initCtl = true) :
    r.Push id srv action = r := by
  unfold registry.Registry.Push
  simp [registry_init_of_initCtl r hi, hc]

/-- C2: on an initialised registry whose closed flag is set, such as the
registry any returning `Close` leaves behind, `Push` returns the registry as
it was, in both variants: index, revision counter, closed flag and result
cache are unchanged, so no finalizer is attached, and no event occurs. -/
theorem C2_push_on_closed_is_noop (r : route.Registry) (q : registry.Registry)
    (id : Nat) (srv : RouteInfo) (action : List Action)
    (hr : 0 < r.closed) (hri : r.initCtl = true)
    (hq : 0 < q.closed) (hqi : q.initCtl = true) :
    r.Push id srv action = r ∧ q.Push id srv action = q
    ∧ (∀ (r0 : route.Registry) (fuel : Nat) (p : route.Registry × List Event),
        r0.Close fuel = some p → p.1.Push id srv action = p.1)
    ∧ (∀ (q0 : registry.Registry) (fuel : Nat) (p : registry.Registry × List Event),
        q0.Close fuel = some p → p.1.Push id srv action = p.1) :=
  ⟨route_Push_of_closed r id srv action hr hri,
   registry_Push_of_closed q id srv action hq hqi,
   fun r0 fuel p h =>
     route_Push_of_closed p.1 id srv action (route_Close_closed fuel r0 p h).1
       (route_Close_closed fuel r0 p h).2,
   fun q0 fuel p h =>
     registry_Push_of_closed p.1 id srv action (registry_Close_closed fuel q0 p h).1
       (registry_Close_closed fuel q0 p h).2⟩

/-- Witness of C2: a closed registry holding the pair (1, 10) with finalizer
7 is left as it was by a `Push` of (2, 20) with finalizer 8. -/
theorem C2_push_on_closed_is_noop_witness :
    (route.Registry.Push
        { route.Registry.zero with sMap := [⟨1, 10, [7]⟩], rRev := 3, closed := 1,
                                   initCtl := true } 2 20 [8])
      = { route.Registry.zero with sMap := [⟨1, 10, [7]⟩], rRev := 3, closed := 1,
                                   initCtl := true }
    ∧ (registry.Registry.Push
        { sMap := [⟨1, 10, [7]⟩], rRev := 3, closed := 1, initCtl := true } 2 20 [8])
      = { sMap := [⟨1, 10, [7]⟩], rRev := 3, closed := 1, initCtl := true } := by
  have h := C2_push_on_closed_is_noop
    { route.Registry.zero with sMap := [⟨1, 10, [7]⟩], rRev := 3, closed := 1,
                               initCtl := true }
    { sMap := [⟨1, 10, [7]⟩], rRev := 3, closed := 1, initCtl := true } 2 20 [8]
    (by decide) rfl (by decide) rfl
  exact ⟨h.1, h.2.1⟩

/-- C6: with no other caller running, `Close` terminates (two passes of its
loop always suffice), in both variants; the events of the drain are the
finalizers of every entry the index held, entry by entry, each entry once;
afterwards the index holds no pair, `Iter` yields the empty sequence and the
closed flag is set. -/
theorem C6_close_drains_and_closes (r : route.Registry) (q : registry.Registry) :
    (∃ r' : route.Registry,
      (∀ fuel, 2 ≤ fuel → r.Close fuel = some (r', r.init.sMap.flatMap Entry.finalize))
      ∧ r'.sMap = [] ∧ r'.Iter = [] ∧ 0 < r'.closed)
    ∧ (∃ q' : registry.Registry,
      (∀ fuel, 2 ≤ fuel → q.Close fuel = some (q', q.init.sMap.flatMap Entry.finalize))
      ∧ q'.sMap = [] ∧ q'.Iter = [] ∧ 0 < q'.closed) := by
  obtain ⟨r', h1, h2, h3, h4, _⟩ := route_Close_spec r
  obtain ⟨q', g1, g2, g3, g4, _⟩ := registry_Close_spec q
  refine ⟨⟨r', h1, h2, ?_, h3⟩, ⟨q', g1, g2, ?_, g3⟩⟩
  · simp [route.Registry.Iter, route_init_of_initCtl r' h4, h2]
  · simp [registry.Registry.Iter, registry_init_of_initCtl q' g4, g2]

/-! ## `Sync` and the revision counter -/

/-- In both variants `Sync` never calls `touch`: the revision counter and the
closed flag of `self` (and, in the caching variant, the result cache) are as
they were, whatever pairs it adds or removes. -/
theorem Sync_keeps_revision (self other : route.Registry)
    (self2 other2 : registry.Registry)
    (onAdd onDelete : Option (Nat → RouteInfo → List Event)) :
    (self.Sync other onAdd onDelete).1.rRev = self.rRev
    ∧ (self.Sync other onAdd onDelete).1.closed = self.closed
    ∧ (self.Sync other onAdd onDelete).1.sCache = self.init.sCache
    ∧ (self2.Sync other2 onAdd onDelete).1.rRev = self2.rRev
    ∧ (self2.Sync other2 onAdd onDelete).1.closed = self2.closed :=
  ⟨route_init_rRev self, route_init_closed self, rfl,
   registry_init_rRev self2, registry_init_closed self2⟩

/-- C8 (the failing input): after `Push(1, 10, f7)` and a `Discover` that
caches endpoint 10, a `Sync` with an empty registry removes the pair and runs
finalizer 7, yet the revision counter stays at 1 instead of rising to 2; the
cache is therefore not invalidated and the next `Discover` returns the removed
endpoint 10, where after a `touch` it reports not-found. A `Sync` that adds a
pair to a fresh registry likewise leaves the counter at 0. -/
theorem C8_sync_mutates_without_bump :
    (route.Registry.zero.Push 1 10 [7]).rRev = 1
    ∧ (route.Registry.zero.Push 1 10 [7]).sMap = [⟨1, 10, [7]⟩]
    ∧ route.afterSync.1.sMap = []
    ∧ route.afterSync.2 = [Event.finalized 1 10 7]
    ∧ route.afterSync.1.rRev = 1
    ∧ (route.afterSync.1.Discover route.roundRobin 1 none).value = some (10, true)
    ∧ (route.afterSync.1.touch.Discover route.roundRobin 1 none).value = some (0, false)
    ∧ route.syncedOnly.sMap = [⟨1, 10, []⟩, ⟨1, 20, []⟩]
    ∧ route.syncedOnly.rRev = 0 := by
  decide

/-! ## The candidate pool -/

theorem ForEach2_collect (t : BTree2D) (k : Nat) :
    ∀ acc : List RouteInfo,
      BTree2D.ForEach2 t k (fun pool k2 => (pool ++ [k2], false)) acc
        = acc ++ (t.filter (fun e => decide (e.k1 = k))).map (fun e => e.k2) := by
  induction t with
  | nil => intro acc; simp [BTree2D.ForEach2]
  | cons e rest ih =>
    intro acc
    by_cases h : e.k1 = k
    · simp [BTree2D.ForEach2, h, ih]
    · simp [BTree2D.ForEach2, h, ih]

theorem route_tPool_eq (r : route.Registry) (s : Nat) :
    r.tPool s = (r.sMap.filter (fun e => decide (e.k1 = s))).map (fun e => e.k2) := by
  simp [route.Registry.tPool, ForEach2_collect]

theorem registry_tPool_eq (r : registry.Registry) (s : Nat) :
    r.tPool s = (r.sMap.filter (fun e => decide (e.k1 = s))).map (fun e => e.k2) := by
  simp [registry.Registry.tPool, ForEach2_collect]

theorem Put_filter_of_absent (t : BTree2D) (s : Nat) (e : RouteInfo) (fins : List Action)
    (h : ∀ x ∈ t, x.k1 ≠ s) :
    (BTree2D.Put t s e fins).filter (fun x => decide (x.k1 = s)) = [⟨s, e, fins⟩] := by
  induction t with
  | nil => simp [BTree2D.Put]
  | cons x rest ih =>
    have hx : x.k1 ≠ s := h x (List.mem_cons_self _ _)
    have hrest : ∀ y ∈ rest, y.k1 ≠ s := fun y hy => h y (List.mem_cons_of_mem _ hy)
    have hnil : rest.filter (fun x => decide (x.k1 = s)) = [] := by
      simp only [List.filter_eq_nil_iff, decide_eq_true_eq]
      exact hrest
    unfold BTree2D.Put
    by_cases hlt : s < x.k1 ∨ (s = x.k1 ∧ e < x.k2)
    · simp [hx, hlt, hnil]
    · simp [hx, hlt, ih hrest]

/-! ## One pass of discovery -/

theorem route_discoverPass_miss (r : route.Registry) (sel : route.Selector) (s : Nat)
    (hmiss : r.cacheLookup r.rRev (route.rCacheKey.of s sel none) = none)
    (hin : sel.InRange) (hpool : r.tPool s ≠ []) :
    ∃ srv : RouteInfo,
      srv ∈ r.tPool s
      ∧ (r.tPool s)[((sel.pick sel.state (r.tPool s)).1).toNat]? = some srv
      ∧ r.discoverPass sel s none = some (.ret srv true
          (if (sel.pick sel.state (r.tPool s)).2.1
            then r.cacheStore r.rRev (route.rCacheKey.of s sel none) srv else r)
          (sel.Select (r.tPool s)).2) := by
  obtain ⟨h0, h1⟩ := hin sel.state (r.tPool s) hpool
  have hlt : ((sel.pick sel.state (r.tPool s)).1).toNat < (r.tPool s).length := by
    omega
  have hlen : (r.tPool s).length ≠ 0 := by
    simpa using hpool
  refine ⟨(r.tPool s)[((sel.pick sel.state (r.tPool s)).1).toNat],
    List.getElem_mem _, List.getElem?_eq_getElem hlt, ?_⟩
  unfold route.Registry.discoverPass
  simp only [hmiss, hlen, if_false, route.Selector.Select, route.reduce,
    List.getElem?_eq_getElem hlt, not_lt.mpr h0]

theorem registry_discoverPass_some (r : registry.Registry) (sel : registry.Selector) (s : Nat)
    (hin : sel.InRange) (hpool : r.tPool s ≠ []) :
    ∃ srv : RouteInfo,
      srv ∈ r.tPool s
      ∧ (r.tPool s)[((sel.pick sel.state (r.tPool s)).1).toNat]? = some srv
      ∧ r.discoverPass sel s = some (.ret srv true (sel.Select (r.tPool s)).2) := by
  obtain ⟨h0, h1⟩ := hin sel.state (r.tPool s) hpool
  have hlt : ((sel.pick sel.state (r.tPool s)).1).toNat < (r.tPool s).length := by
    omega
  have hlen : (r.tPool s).length ≠ 0 := by
    simpa using hpool
  refine ⟨(r.tPool s)[((sel.pick sel.state (r.tPool s)).1).toNat],
    List.getElem_mem _, List.getElem?_eq_getElem hlt, ?_⟩
  unfold registry.Registry.discoverPass
  simp only [hlen, if_false, registry.Selector.Select,
    List.getElem?_eq_getElem hlt, not_lt.mpr h0]

/-! ## The cache generation installed by `touch` -/

theorem route_touch_sCache_new (r : route.Registry)
    (h : r.sCache (AddUint64 r.rRev 1) = none) :
    r.touch.sCache r.touch.rRev = some (fun _ => none) := by
  simp [route.Registry.touch, h]

theorem route_touch_lookup_new (r : route.Registry) (key : route.rCacheKey)
    (h : r.sCache (AddUint64 r.rRev 1) = none) :
    r.touch.cacheLookup r.touch.rRev key = none := by
  simp [route.Registry.cacheLookup, route_touch_sCache_new r h]

theorem route_Push_open_eq (r : route.Registry) (id : Nat) (srv : RouteInfo)
    (action : List Action) (h : r.closed = 0) :
    r.Push id srv action
      = route.Registry.touch { r.init with sMap := BTree2D.Put r.init.sMap id srv action } := by
  unfold route.Registry.Push
  simp [route_init_closed, h]

theorem registry_Push_open_eq (r : registry.Registry) (id : Nat) (srv : RouteInfo)
    (action : List Action) (h : r.closed = 0) :
    r.Push id srv action
      = registry.Registry.touch
          { r.init with sMap := BTree2D.Put r.init.sMap id srv action } := by
  unfold registry.Registry.Push
  have : ∀ l : List Action, List.foldl (fun fins act => fins ++ [act]) [] l = l := by
    intro l
    have aux : ∀ (l acc : List Action),
        List.foldl (fun fins act => fins ++ [act]) acc l = acc ++ l := by
      intro l
      induction l with
      | nil => intro acc; simp
      | cons a l ih => intro acc; simp [ih]
    simpa using aux l []
  simp [registry_init_closed, h, this]

theorem route_Push_initCtl (r : route.Registry) (id : Nat) (srv : RouteInfo)
    (action : List Action) : (r.Push id srv action).initCtl = true := by
  unfold route.Registry.Push
  simp only []
  split
  · exact route_init_initCtl r
  · exact route_init_initCtl r

theorem registry_Push_initCtl (r : registry.Registry) (id : Nat) (srv : RouteInfo)
    (action : List Action) : (r.Push id srv action).initCtl = true := by
  unfold registry.Registry.Push
  simp only []
  split
  · exact registry_init_initCtl r
  · exact registry_init_initCtl r

theorem route_Discover_eq (r : route.Registry) (sel : route.Selector) (s : Nat)
    (red : Option route.Reducer) (hi : r.initCtl = true) :
    r.Discover sel s red =
      match r.discoverPass sel s red with
      | some out => out
      | none => .ret 0 false r sel := by
  simp [route.Registry.Discover, route.Registry.DiscoverTimeout,
    route_init_of_initCtl r hi, route.Registry.discoverLoop]

theorem registry_Discover_eq (r : registry.Registry) (sel : registry.Selector) (s : Nat)
    (hi : r.initCtl = true) :
    r.Discover sel s =
      match r.discoverPass sel s with
      | some out => out
      | none => .ret 0 false sel := by
  simp [registry.Registry.Discover, registry.Registry.DiscoverTimeout,
    registry_init_of_initCtl r hi, registry.Registry.discoverLoop]

/-- C3: in both variants, on a registry that is not closed and holds no
endpoint under `s`, `Discover` for `s` right after `Push(s, e)` returns
`(e, true)` for every selection policy that keeps to its contract; in the
caching variant this holds whatever the cache holds at the current and older
revisions, the generation of the revision the `Push` creates being absent (as
in every registry built from a fresh one, where generations are keyed by
revisions already reached). -/
theorem C3_discover_after_push (r : route.Registry) (q : registry.Registry)
    (sel : route.Selector) (sel2 : registry.Selector)
    (s : Nat) (e : RouteInfo) (fins : List Action)
    (hr : r.closed = 0) (hq : q.closed = 0)
    (hrs : ∀ x ∈ r.init.sMap, x.k1 ≠ s) (hqs : ∀ x ∈ q.init.sMap, x.k1 ≠ s)
    (hsel : sel.InRange) (hsel2 : sel2.InRange)
    (hgen : r.init.sCache (AddUint64 r.rRev 1) = none) :
    ((r.Push s e fins).Discover sel s none).value = some (e, true)
    ∧ ((q.Push s e fins).Discover sel2 s).value = some (e, true) := by
  constructor
  · rw [route_Discover_eq _ _ _ _ (route_Push_initCtl r s e fins),
      route_Push_open_eq r s e fins hr]
    have hpool : (route.Registry.touch
        { r.init with sMap := BTree2D.Put r.init.sMap s e fins }).tPool s = [e] := by
      rw [route_tPool_eq, route_touch_sMap]
      simp [Put_filter_of_absent _ s e fins hrs]
    have hmiss := route_touch_lookup_new
      { r.init with sMap := BTree2D.Put r.init.sMap s e fins } (route.rCacheKey.of s sel none)
      (by simpa [route_init_rRev] using hgen)
    obtain ⟨srv, hmem, _, hpass⟩ := route_discoverPass_miss _ sel s hmiss hsel
      (by rw [hpool]; simp)
    rw [hpool] at hmem
    have : srv = e := by simpa using hmem
    subst this
    rw [hpass]
    rfl
  · rw [registry_Discover_eq _ _ _ (registry_Push_initCtl q s e fins),
      registry_Push_open_eq q s e fins hq]
    have hpool : (registry.Registry.touch
        { q.init with sMap := BTree2D.Put q.init.sMap s e fins }).tPool s = [e] := by
      rw [registry_tPool_eq]
      simp [registry.Registry.touch, Put_filter_of_absent _ s e fins hqs]
    obtain ⟨srv, hmem, _, hpass⟩ := registry_discoverPass_some _ sel2 s hsel2
      (by rw [hpool]; simp)
    rw [hpool] at hmem
    have : srv = e := by simpa using hmem
    subst this
    rw [hpass]
    rfl

theorem route_firstSelector_inRange : route.firstSelector.InRange := by
  intro st pool hp
  have : 0 < pool.length := List.length_pos.mpr hp
  simp only [route.firstSelector]
  omega

theorem registry_firstSelector_inRange : registry.firstSelector.InRange := by
  intro st pool hp
  have : 0 < pool.length := List.length_pos.mpr hp
  simp only [registry.firstSelector]
  omega

theorem route_roundRobin_inRange : route.roundRobin.InRange := by
  intro st pool hp
  have hpos : 0 < pool.length := List.length_pos.mpr hp
  have := Nat.mod_lt st hpos
  simp only [route.roundRobin]
  omega

/-- Witness of C3: on the sample registries, whose cache holds a stale entry
for service 1, `Discover` for service 1 after `Push(1, 10)` returns
`(10, true)`. -/
theorem C3_discover_after_push_witness :
    ((route.sample.Push 1 10 [7]).Discover route.firstSelector 1 none).value
        = some (10, true)
    ∧ ((registry.sample.Push 1 10 [7]).Discover registry.firstSelector 1).value
        = some (10, true) :=
  C3_discover_after_push route.sample registry.sample route.firstSelector
    registry.firstSelector 1 10 [7] rfl rfl (by decide) (by decide)
    route_firstSelector_inRange registry_firstSelector_inRange rfl

/-! ## A reduction policy that empties the pool -/

/-- C9 (the failing input): in the caching variant the pool is tested for
emptiness before the reduction policy runs; when the policy filters out every
endpoint, the selection policy is invoked on the empty pool and indexing the
pool with its answer panics (index out of range `[0]` with length 0). -/
theorem C9_reduced_pool_empty_panics :
    (route.Registry.Discover
        { route.Registry.zero with sMap := [⟨1, 10, []⟩], initCtl := true }
        route.firstSelector 1 (some route.dropAll)).failure
      = some (Panic.indexOutOfRange 0 0)
    ∧ (route.Registry.DiscoverTimeout
        { route.Registry.zero with sMap := [⟨1, 10, []⟩], initCtl := true }
        route.firstSelector 1 5 (some route.dropAll)).failure
      = some (Panic.indexOutOfRange 0 0) := by
  constructor <;> decide

theorem registry_discoverLoop_safe (r : registry.Registry) (sel : registry.Selector)
    (s : Nat) (hin : sel.InRange) :
    ∀ wait : Nat, (r.discoverLoop sel s wait).failure = none := by
  intro wait
  induction wait with
  | zero =>
    unfold registry.Registry.discoverLoop
    by_cases hp : r.tPool s = []
    · simp [registry.Registry.discoverPass, hp, registry.Outcome.failure]
    · obtain ⟨srv, _, _, hpass⟩ := registry_discoverPass_some r sel s hin hp
      simp [hpass, registry.Outcome.failure]
  | succ n ih =>
    unfold registry.Registry.discoverLoop
    by_cases hp : r.tPool s = []
    · simpa [registry.Registry.discoverPass, hp] using ih
    · obtain ⟨srv, _, _, hpass⟩ := registry_discoverPass_some r sel s hin hp
      simp [hpass, registry.Outcome.failure]

/-- In the plain variant, which has no reduction policy, a selection policy
that keeps to its contract never makes `DiscoverTimeout` or `Discover`
panic. -/
theorem registry_discover_never_panics (r : registry.Registry) (sel : registry.Selector)
    (s wait : Nat) (hin : sel.InRange) :
    (r.DiscoverTimeout sel s wait).failure = none ∧ (r.Discover sel s).failure = none :=
  ⟨registry_discoverLoop_safe _ sel s hin wait, registry_discoverLoop_safe _ sel s hin 0⟩

theorem route_discoverPass_cases (r : route.Registry) (sel : route.Selector) (s : Nat)
    (red : Option route.Reducer) :
    (∃ srv, r.cacheLookup r.rRev (route.rCacheKey.of s sel red) = some srv
        ∧ r.discoverPass sel s red = some (.ret srv true r sel))
    ∨ (r.cacheLookup r.rRev (route.rCacheKey.of s sel red) = none ∧ r.tPool s = []
        ∧ r.discoverPass sel s red = none)
    ∨ (r.cacheLookup r.rRev (route.rCacheKey.of s sel red) = none ∧ r.tPool s ≠ []
        ∧ ∃ p, r.discoverPass sel s red = some (.panic p))
    ∨ (r.cacheLookup r.rRev (route.rCacheKey.of s sel red) = none ∧ r.tPool s ≠ []
        ∧ ∃ srv, srv ∈ route.reduce red (r.tPool s)
          ∧ r.discoverPass sel s red = some (.ret srv true
              (if (sel.Select (route.reduce red (r.tPool s))).1.2
                then r.cacheStore r.rRev (route.rCacheKey.of s sel red) srv else r)
              (sel.Select (route.reduce red (r.tPool s))).2)) := by
  cases hl : r.cacheLookup r.rRev (route.rCacheKey.of s sel red) with
  | some srv =>
    left
    exact ⟨srv, rfl, by simp [route.Registry.discoverPass, hl]⟩
  | none =>
    right
    by_cases hp : r.tPool s = []
    · left
      exact ⟨rfl, hp, by simp [route.Registry.discoverPass, hl, hp]⟩
    · right
      have hlen : (r.tPool s).length ≠ 0 := by simpa using hp
      cases hg : (route.reduce red (r.tPool s))[
          ((sel.Select (route.reduce red (r.tPool s))).1.1).toNat]? with
      | none =>
        left
        refine ⟨rfl, hp, Panic.indexOutOfRange (sel.Select (route.reduce red (r.tPool s))).1.1
          (route.reduce red (r.tPool s)).length, ?_⟩
        simp only [route.Registry.discoverPass, hl, hlen, if_false, hg]
      | some srv =>
        by_cases hneg : (sel.Select (route.reduce red (r.tPool s))).1.1 < 0
        · left
          refine ⟨rfl, hp, Panic.indexOutOfRange (sel.Select (route.reduce red (r.tPool s))).1.1
          (route.reduce red (r.tPool s)).length, ?_⟩
          simp only [route.Registry.discoverPass, hl, hlen, if_false, hg, hneg, if_true]
        · right
          refine ⟨rfl, hp, srv, List.getElem?_mem hg, ?_⟩
          simp only [route.Registry.discoverPass, hl, hlen, if_false, hg, hneg]

/-! ## Two consecutive discoveries -/

theorem route_cacheStore_rRev (r : route.Registry) (ver : Nat) (key : route.rCacheKey)
    (srv : RouteInfo) : (r.cacheStore ver key srv).rRev = r.rRev := by
  unfold route.Registry.cacheStore; split <;> rfl

theorem route_cacheStore_initCtl (r : route.Registry) (ver : Nat) (key : route.rCacheKey)
    (srv : RouteInfo) : (r.cacheStore ver key srv).initCtl = r.initCtl := by
  unfold route.Registry.cacheStore; split <;> rfl

theorem route_cacheStore_lookup (r : route.Registry) (ver : Nat) (key : route.rCacheKey)
    (srv : RouteInfo) (hgen : r.sCache ver ≠ none) :
    (r.cacheStore ver key srv).cacheLookup ver key = some srv := by
  cases hg : r.sCache ver with
  | none => exact absurd hg hgen
  | some cGr => simp [route.Registry.cacheStore, route.Registry.cacheLookup, hg]

theorem route_discoverPass_hit (r : route.Registry) (sel : route.Selector) (s : Nat)
    (red : Option route.Reducer) (srv : RouteInfo)
    (h : r.cacheLookup r.rRev (route.rCacheKey.of s sel red) = some srv) :
    r.discoverPass sel s red = some (.ret srv true r sel) := by
  simp [route.Registry.discoverPass, h]

theorem route_Discover_init (r : route.Registry) (sel : route.Selector) (s : Nat)
    (red : Option route.Reducer) :
    r.Discover sel s red =
      match r.init.discoverPass sel s red with
      | some out => out
      | none => .ret 0 false r.init sel := by
  simp [route.Registry.Discover, route.Registry.DiscoverTimeout,
    route_init_init, route.Registry.discoverLoop]

/-- When the cache holds a generation for the current revision, a `Discover`
that returns `(e, true)`, its selection policy reporting cacheable on the pool
it is given, is followed by `(e, true)` from a second `Discover` with the same
arguments and no mutation in between, whatever the state the selection policy
is in by then. -/
theorem route_cached_discover_repeats (r : route.Registry) (sel : route.Selector) (s : Nat)
    (red : Option route.Reducer) (e : RouteInfo)
    (hgen : r.init.sCache r.rRev ≠ none)
    (hfirst : (r.Discover sel s red).value = some (e, true))
    (hcache : (sel.Select (route.reduce red (r.init.tPool s))).1.2 = true) :
    r.discoverTwice sel s red = some ((e, true), (e, true)) := by
  have hi := route_init_initCtl r
  have hrev := route_init_rRev r
  rw [route_Discover_init] at hfirst
  unfold route.Registry.discoverTwice
  rw [route_Discover_init r]
  rcases route_discoverPass_cases r.init sel s red with
    ⟨srv, hl, hp⟩ | ⟨_, _, hp⟩ | ⟨_, _, p, hp⟩ | ⟨_, _, srv, _, hp⟩
  · rw [hp] at hfirst ⊢
    simp only [route.Outcome.value, Option.some.injEq, Prod.mk.injEq, and_true] at hfirst
    subst hfirst
    simp only []
    rw [route_Discover_init, route_init_init, hp]
  · rw [hp] at hfirst
    simp [route.Outcome.value] at hfirst
  · rw [hp] at hfirst
    simp [route.Outcome.value] at hfirst
  · rw [hp] at hfirst ⊢
    simp only [route.Outcome.value, Option.some.injEq, Prod.mk.injEq, and_true] at hfirst
    subst hfirst
    simp only [hcache, if_true]
    have hi2 : (r.init.cacheStore r.init.rRev (route.rCacheKey.of s sel red) srv).initCtl
        = true := by rw [route_cacheStore_initCtl]; exact hi
    have hlook := route_cacheStore_lookup r.init r.init.rRev (route.rCacheKey.of s sel red) srv
      (by rw [hrev]; exact hgen)
    have hhit := route_discoverPass_hit
      (r.init.cacheStore r.init.rRev (route.rCacheKey.of s sel red) srv)
      (sel.Select (route.reduce red (r.init.tPool s))).2 s red srv
      (by rw [route_cacheStore_rRev]; exact hlook)
    rw [route_Discover_init, route_init_of_initCtl _ hi2, hhit]

/-- C4 (the failing input): on a registry populated only by `Sync`, which
mutates the index without `touch`, the revision is 0 and the cache has no
generation for it; the round-robin policy reports cacheable, the first
`Discover` returns `(10, true)`, its cache write is dropped, and the second
`Discover`, with the same arguments and no mutation in between, returns
`(20, true)`. Had the `Sync` been followed by `touch`, both calls would
return `(10, true)`. -/
theorem C4_sync_populated_discover_differs :
    route.syncedOnly.rRev = 0
    ∧ route.syncedOnly.cacheLookup 0 (route.rCacheKey.of 1 route.roundRobin none) = none
    ∧ (route.roundRobin.Select [10, 20]).1.2 = true
    ∧ (route.syncedOnly.Discover route.roundRobin 1 none).value = some (10, true)
    ∧ route.syncedOnly.discoverTwice route.roundRobin 1 none
        = some ((10, true), (20, true))
    ∧ route.syncedOnly.touch.discoverTwice route.roundRobin 1 none
        = some ((10, true), (10, true)) := by
  decide

/-! ## Exactly one generation after a revision bump -/

theorem AddUint64_one_of_lt (v : Nat) (h : v + 1 < u64) : AddUint64 v 1 = v + 1 :=
  Nat.mod_eq_of_lt h

theorem route_touch_oneGeneration (r : route.Registry)
    (hb : ∀ v, r.rRev < v → r.sCache v = none) (hw : r.rRev + 1 < u64) :
    r.touch.OneEmptyGeneration := by
  intro v
  have hn : AddUint64 r.rRev 1 = r.rRev + 1 := AddUint64_one_of_lt _ hw
  have hnone : r.sCache (r.rRev + 1) = none := hb _ (Nat.lt_succ_self _)
  simp only [route.Registry.touch, hn, hnone]
  by_cases h1 : v < r.rRev + 1
  · have : v ≠ r.rRev + 1 := by omega
    simp [h1, this]
  · by_cases h2 : v = r.rRev + 1
    · simp [h2]
    · have : r.sCache v = none := hb v (by omega)
      simp [h1, h2, this]

theorem route_closeLoop_cache (fuel : Nat) :
    ∀ (r : route.Registry) (evs : List Event) (p : route.Registry × List Event),
      route.Registry.closeLoop fuel r evs = some p →
        p.1.sCache = r.init.sCache ∧ p.1.rRev = r.rRev := by
  induction fuel with
  | zero => intro r evs p h; simp [route.Registry.closeLoop] at h
  | succ n ih =>
    intro r evs p h
    rw [route_closeLoop_succ, route_closePass_eq] at h
    split at h
    · obtain ⟨h1, h2⟩ := ih _ _ _ h
      have hX : ∀ c, route.Registry.init { r.init with sMap := [], closed := c }
          = { r.init with sMap := [], closed := c } :=
        fun c => route_init_of_initCtl _ (route_init_initCtl r)
      have e1 : (route.Registry.init
          { r.init with sMap := [], closed := AddUint64 r.closed 1 }).sCache
          = r.init.sCache := by rw [hX]
      exact ⟨h1.trans e1, h2.trans (route_init_rRev r)⟩
    · simp only [Option.some.injEq] at h
      subst h
      exact ⟨rfl, route_init_rRev r⟩

theorem route_Close_eq_touch (fuel : Nat) (r : route.Registry)
    (p : route.Registry × List Event) (h : r.Close fuel = some p) :
    ∃ r1 : route.Registry, p.1 = r1.touch ∧ r1.sCache = r.init.sCache ∧ r1.rRev = r.rRev := by
  unfold route.Registry.Close at h
  cases hl : route.Registry.closeLoop fuel r [] with
  | none => simp [hl] at h
  | some p1 =>
    simp only [hl, Option.map_some', Option.some.injEq] at h
    subst h
    exact ⟨p1.1, rfl, route_closeLoop_cache fuel r [] p1 hl⟩

/-- C5: in the caching variant, in a registry whose cache holds no generation
keyed above the current revision (as in every registry built from a fresh
one) and whose counter is not about to wrap, every revision bump, by `Push`
on a registry that is not closed, by `Pop`, or by the final step of `Close`,
leaves exactly one generation in the cache, keyed by the new revision and
empty; so the cache lookup of a following `Discover` misses for every key. -/
theorem C5_one_fresh_generation_after_bump (r : route.Registry)
    (hb : ∀ v, r.rRev < v → r.init.sCache v = none) (hw : r.rRev + 1 < u64) :
    (∀ id srv action, r.closed = 0 →
        (r.Push id srv action).OneEmptyGeneration
        ∧ (r.Push id srv action).rRev = r.rRev + 1
        ∧ ∀ key, (r.Push id srv action).cacheLookup (r.Push id srv action).rRev key = none)
    ∧ (∀ id srv,
        (r.Pop id srv).1.OneEmptyGeneration
        ∧ (r.Pop id srv).1.rRev = r.rRev + 1
        ∧ ∀ key, (r.Pop id srv).1.cacheLookup (r.Pop id srv).1.rRev key = none)
    ∧ (∀ fuel p, r.Close fuel = some p →
        p.1.OneEmptyGeneration ∧ p.1.rRev = r.rRev + 1
        ∧ ∀ key, p.1.cacheLookup p.1.rRev key = none) := by
  have key_none : ∀ q : route.Registry, q.OneEmptyGeneration →
      ∀ key, q.cacheLookup q.rRev key = none := by
    intro q hq key
    simp [route.Registry.cacheLookup, hq q.rRev]
  have bump : ∀ q : route.Registry, q.sCache = r.init.sCache → q.rRev = r.rRev →
      q.touch.OneEmptyGeneration ∧ q.touch.rRev = r.rRev + 1 := by
    intro q hc hrev
    refine ⟨route_touch_oneGeneration q (by rw [hc, hrev]; exact hb) (by rw [hrev]; exact hw), ?_⟩
    rw [route_touch_rRev, hrev, AddUint64_one_of_lt _ hw]
  refine ⟨?_, ?_, ?_⟩
  · intro id srv action hopen
    rw [route_Push_open_eq r id srv action hopen]
    obtain ⟨h1, h2⟩ := bump { r.init with sMap := BTree2D.Put r.init.sMap id srv action }
      rfl (route_init_rRev r)
    exact ⟨h1, h2, key_none _ h1⟩
  · intro id srv
    obtain ⟨h1, h2⟩ := bump { r.init with sMap := (BTree2D.Delete r.init.sMap id srv).1 }
      rfl (route_init_rRev r)
    exact ⟨h1, h2, key_none _ h1⟩
  · intro fuel p hp
    obtain ⟨r1, he, hc, hrev⟩ := route_Close_eq_touch fuel r p hp
    obtain ⟨h1, h2⟩ := bump r1 hc hrev
    rw [he]
    exact ⟨h1, h2, key_none _ h1⟩

/-- Witness of C5: on the sample registry, whose current generation caches an
entry, the cache after a `Push` is the single empty generation of
revision 2. -/
theorem C5_one_fresh_generation_after_bump_witness :
    (route.sample.Push 1 10 []).OneEmptyGeneration
    ∧ (route.sample.Push 1 10 []).rRev = 2
    ∧ (route.sample.Pop 2 20).1.OneEmptyGeneration := by
  have h := C5_one_fresh_generation_after_bump route.sample
    (by
      intro v hv
      have hv1 : v ≠ 1 := by
        have : route.sample.rRev = 1 := rfl
        omega
      simp [route.sample, route.Registry.init, hv1])
    (by decide)
  exact ⟨(h.1 1 10 [] rfl).1, (h.1 1 10 [] rfl).2.1, (h.2.1 2 20).1⟩

/-! ## Soundness of the cache along a run -/

theorem route_oneGeneration_sound (q : route.Registry) (hq : q.OneEmptyGeneration) :
    q.CacheSound := by
  intro v cGr h
  have hv := hq v
  rw [h] at hv
  by_cases hvr : v = q.rRev
  · simp only [hvr, if_true, Option.some.injEq] at hv
    subst hv
    exact ⟨le_of_eq hvr, fun _ key srv hk _ => by simp at hk⟩
  · simp [hvr] at hv

theorem route_init_sound (r : route.Registry) (h : r.CacheSound) : r.init.CacheSound := by
  unfold route.Registry.init
  split
  · exact h
  · intro v cGr hv
    simp at hv

theorem route_sound_above (r : route.Registry) (h : r.CacheSound) :
    ∀ v, r.rRev < v → r.sCache v = none := by
  intro v hv
  cases hc : r.sCache v with
  | none => rfl
  | some cGr =>
    have := (h v cGr hc).1
    omega

theorem route_bump_sound (q r : route.Registry) (hc : q.sCache = r.init.sCache)
    (hrev : q.rRev = r.rRev) (hs : r.CacheSound) (hw : r.rRev + 1 < u64) :
    q.touch.CacheSound ∧ q.touch.rRev = r.rRev + 1 := by
  have hb : ∀ v, q.rRev < v → q.sCache v = none := by
    intro v hv
    rw [hc]
    exact route_sound_above r.init (route_init_sound r hs) v
      (by rw [route_init_rRev, ← hrev]; exact hv)
  refine ⟨route_oneGeneration_sound _
    (route_touch_oneGeneration q hb (by rw [hrev]; exact hw)), ?_⟩
  rw [route_touch_rRev, hrev, AddUint64_one_of_lt _ hw]

theorem route_cacheStore_sound (r : route.Registry) (key : route.rCacheKey) (srv : RouteInfo)
    (h : r.CacheSound) (hsrv : key.r = none → srv ∈ r.tPool key.sname) :
    (r.cacheStore r.rRev key srv).CacheSound := by
  unfold route.Registry.cacheStore
  cases hg : r.sCache r.rRev with
  | none => exact h
  | some cGr =>
    intro v g hv
    simp only at hv
    by_cases hvr : v = r.rRev
    · simp only [hvr, if_true, Option.some.injEq] at hv
      subst hv
      refine ⟨le_of_eq hvr, fun _ k x hk hkr => ?_⟩
      by_cases hkk : k = key
      · simp only [hkk, if_true, Option.some.injEq] at hk
        subst hk
        subst hkk
        exact hsrv hkr
      · simp only [hkk, if_false] at hk
        exact (h r.rRev cGr hg).2 rfl k x hk hkr
    · simp only [hvr, if_false] at hv
      exact ⟨(h v g hv).1, fun hvv => absurd hvv hvr⟩

theorem route_discoverLoop_reg (q : route.Registry) (sel : route.Selector) (s : Nat)
    (red : Option route.Reducer) (r' : route.Registry) :
    ∀ wait : Nat, (q.discoverLoop sel s red wait).reg = some r' →
      r' = q ∨ ∃ srv, srv ∈ route.reduce red (q.tPool s)
        ∧ r' = q.cacheStore q.rRev (route.rCacheKey.of s sel red) srv := by
  intro wait
  induction wait with
  | zero =>
    intro h
    unfold route.Registry.discoverLoop at h
    rcases route_discoverPass_cases q sel s red with
      ⟨srv, _, hp⟩ | ⟨_, _, hp⟩ | ⟨_, _, p, hp⟩ | ⟨_, _, srv, hmem, hp⟩
    · rw [hp] at h
      simp only [route.Outcome.reg, Option.some.injEq] at h
      exact Or.inl h.symm
    · rw [hp] at h
      simp only [route.Outcome.reg, Option.some.injEq] at h
      exact Or.inl h.symm
    · rw [hp] at h
      simp [route.Outcome.reg] at h
    · rw [hp] at h
      simp only [route.Outcome.reg, Option.some.injEq] at h
      split at h
      · exact Or.inr ⟨srv, hmem, h.symm⟩
      · exact Or.inl h.symm
  | succ n ih =>
    intro h
    unfold route.Registry.discoverLoop at h
    rcases route_discoverPass_cases q sel s red with
      ⟨srv, _, hp⟩ | ⟨_, _, hp⟩ | ⟨_, _, p, hp⟩ | ⟨_, _, srv, hmem, hp⟩
    · rw [hp] at h
      simp only [route.Outcome.reg, Option.some.injEq] at h
      exact Or.inl h.symm
    · rw [hp] at h
      exact ih h
    · rw [hp] at h
      simp [route.Outcome.reg] at h
    · rw [hp] at h
      simp only [route.Outcome.reg, Option.some.injEq] at h
      split at h
      · exact Or.inr ⟨srv, hmem, h.symm⟩
      · exact Or.inl h.symm

theorem route_discoverLoop_value (q : route.Registry) (sel : route.Selector) (s : Nat)
    (red : Option route.Reducer) (e : RouteInfo) :
    ∀ wait : Nat, (q.discoverLoop sel s red wait).value = some (e, true) →
      q.cacheLookup q.rRev (route.rCacheKey.of s sel red) = some e
      ∨ e ∈ route.reduce red (q.tPool s) := by
  intro wait
  induction wait with
  | zero =>
    intro h
    unfold route.Registry.discoverLoop at h
    rcases route_discoverPass_cases q sel s red with
      ⟨srv, hl, hp⟩ | ⟨_, _, hp⟩ | ⟨_, _, p, hp⟩ | ⟨_, _, srv, hmem, hp⟩
    · rw [hp] at h
      simp only [route.Outcome.value, Option.some.injEq, Prod.mk.injEq, and_true] at h
      exact Or.inl (h ▸ hl)
    · rw [hp] at h
      simp [route.Outcome.value] at h
    · rw [hp] at h
      simp [route.Outcome.value] at h
    · rw [hp] at h
      simp only [route.Outcome.value, Option.some.injEq, Prod.mk.injEq, and_true] at h
      exact Or.inr (h ▸ hmem)
  | succ n ih =>
    intro h
    unfold route.Registry.discoverLoop at h
    rcases route_discoverPass_cases q sel s red with
      ⟨srv, hl, hp⟩ | ⟨_, _, hp⟩ | ⟨_, _, p, hp⟩ | ⟨_, _, srv, hmem, hp⟩
    · rw [hp] at h
      simp only [route.Outcome.value, Option.some.injEq, Prod.mk.injEq, and_true] at h
      exact Or.inl (h ▸ hl)
    · rw [hp] at h
      exact ih h
    · rw [hp] at h
      simp [route.Outcome.value] at h
    · rw [hp] at h
      simp only [route.Outcome.value, Option.some.injEq, Prod.mk.injEq, and_true] at h
      exact Or.inr (h ▸ hmem)

theorem route_reachable_sound {n : Nat} {r : route.Registry} (h : route.Reachable n r) :
    n < u64 → r.rRev ≤ n ∧ r.CacheSound := by
  induction h with
  | fresh =>
    intro _
    refine ⟨le_refl _, ?_⟩
    intro v cGr hv
    simp [route.Registry.zero] at hv
  | @push n r id srv action _ ih =>
    intro hn
    obtain ⟨hle, hs⟩ := ih (by omega)
    by_cases hc : r.closed = 0
    · rw [route_Push_open_eq r id srv action hc]
      obtain ⟨h1, h2⟩ := route_bump_sound
        { r.init with sMap := BTree2D.Put r.init.sMap id srv action } r rfl
        (route_init_rRev r) hs (by omega)
      exact ⟨by rw [h2]; omega, h1⟩
    · have hpos : 0 < r.closed := Nat.pos_of_ne_zero hc
      have : r.Push id srv action = r.init := by
        unfold route.Registry.Push
        simp [route_init_closed, hpos]
      rw [this]
      exact ⟨by rw [route_init_rRev]; omega, route_init_sound r hs⟩
  | @pop n r id srv _ ih =>
    intro hn
    obtain ⟨hle, hs⟩ := ih (by omega)
    obtain ⟨h1, h2⟩ := route_bump_sound
      { r.init with sMap := (BTree2D.Delete r.init.sMap id srv).1 } r rfl
      (route_init_rRev r) hs (by omega)
    exact ⟨by
      show (route.Registry.touch _).rRev ≤ n + 1
      rw [h2]; omega, h1⟩
  | @close n r fuel p _ hp ih =>
    intro hn
    obtain ⟨hle, hs⟩ := ih (by omega)
    obtain ⟨r1, he, hc, hrev⟩ := route_Close_eq_touch fuel r p hp
    obtain ⟨h1, h2⟩ := route_bump_sound r1 r hc hrev hs (by omega)
    rw [he]
    exact ⟨by rw [h2]; omega, h1⟩
  | @discover n r sel s wait red r' _ hd ih =>
    intro hn
    obtain ⟨hle, hs⟩ := ih hn
    have hsi := route_init_sound r hs
    rcases route_discoverLoop_reg r.init sel s red r' wait hd with h | ⟨srv, hmem, h⟩
    · rw [h]
      exact ⟨by rw [route_init_rRev]; exact hle, hsi⟩
    · rw [h]
      refine ⟨by rw [route_cacheStore_rRev, route_init_rRev]; exact hle, ?_⟩
      apply route_cacheStore_sound _ _ _ hsi
      intro hk
      have hred : red = none := by
        cases red with
        | none => rfl
        | some rd => simp [route.rCacheKey.of] at hk
      subst hred
      exact hmem

theorem has_of_mem_tPool (t : BTree2D) (s : Nat) (e : RouteInfo)
    (h : e ∈ (t.filter (fun x => decide (x.k1 = s))).map (fun x => x.k2)) :
    BTree2D.has t s e = true := by
  simp only [List.mem_map, List.mem_filter, decide_eq_true_eq] at h
  obtain ⟨x, ⟨hx, hk1⟩, hk2⟩ := h
  simp only [BTree2D.has, List.any_eq_true, decide_eq_true_eq]
  exact ⟨x, hx, hk1, hk2⟩

theorem route_discoverLoop_stored (q : route.Registry) (hs : q.CacheSound)
    (sel : route.Selector) (s wait : Nat) (e : RouteInfo)
    (h : (q.discoverLoop sel s none wait).value = some (e, true)) :
    BTree2D.has q.sMap s e = true := by
  apply has_of_mem_tPool
  rw [← route_tPool_eq]
  rcases route_discoverLoop_value q sel s none e wait h with hl | hmem
  · unfold route.Registry.cacheLookup at hl
    cases hg : q.sCache q.rRev with
    | none => simp [hg] at hl
    | some cGr =>
      simp only [hg] at hl
      exact (hs q.rRev cGr hg).2 rfl _ e hl rfl
  · exact hmem

/-- C10: in the caching variant, in every registry reached from a fresh one by
fewer than `2 ^ 64` mutating calls (`Push`, `Pop`, `Close`) and any number of
returning discovery calls in between, a `DiscoverTimeout` or `Discover` for
service `s` without reduction policy that returns `(e, true)` returns an
endpoint that the index holds under `s` at the time of the call, for every
selection policy: a cache hit never yields a removed endpoint. -/
theorem C10_discover_returns_stored_endpoint (n : Nat) (r : route.Registry)
    (hr : route.Reachable n r) (hn : n < u64) (sel : route.Selector) (s : Nat) :
    (∀ (wait : Nat) (e : RouteInfo),
        (r.DiscoverTimeout sel s wait none).value = some (e, true) →
        BTree2D.has r.init.sMap s e = true)
    ∧ (∀ e : RouteInfo, (r.Discover sel s none).value = some (e, true) →
        BTree2D.has r.init.sMap s e = true) := by
  have hs := route_init_sound r (route_reachable_sound hr hn).2
  constructor
  · intro wait e h
    exact route_discoverLoop_stored r.init hs sel s wait e h
  · intro e h
    unfold route.Registry.Discover route.Registry.DiscoverTimeout at h
    rw [route_init_init] at h
    exact route_discoverLoop_stored r.init hs sel s 0 e h

theorem route_afterPop_reachable : route.Reachable 3 route.afterPop :=
  route.Reachable.pop 1 10
    (route.Reachable.discover route.roundRobin 1 0 none _
      (route.Reachable.push 1 20 [] (route.Reachable.push 1 10 [] route.Reachable.fresh))
      rfl)

/-- Witness of C10: after endpoint 10 was cached for service 1 and then
popped, `Discover` returns endpoint 20, which the index holds. -/
theorem C10_discover_returns_stored_endpoint_witness :
    (route.afterPop.Discover route.roundRobin 1 none).value = some (20, true)
    ∧ BTree2D.has route.afterPop.init.sMap 1 20 = true :=
  ⟨by decide,
   (C10_discover_returns_stored_endpoint 3 route.afterPop route_afterPop_reachable
      (by decide) route.roundRobin 1).2 20 (by decide)⟩

/-! ## `Close` racing with `Push` -/

/-- When `Push` returns before `Close()` starts, `Close()` drains the pair and
runs its finalizer. -/
theorem route_pushFirst_drained :
    (route.System.start.run route.pushFirstSchedule).closer.pc = route.ClosePc.done
    ∧ (route.System.start.run route.pushFirstSchedule).pushers.map (fun t => t.pc)
        = [route.PushPc.done]
    ∧ (route.System.start.run route.pushFirstSchedule).reg.sMap = []
    ∧ (route.System.start.run route.pushFirstSchedule).events = [Event.finalized 1 10 7] := by
  decide

/-- C7 (the failing interleaving): a `Push(1, 10, f7)` that has passed its
test of the closed flag when `Close()` runs to its return puts its pair into
the closed registry afterwards: both calls have returned, the closed flag is
set, the index holds the pair (1, 10) and finalizer 7 has not run. -/
theorem C7_push_races_past_close :
    (route.System.start.run route.racySchedule).closer.pc = route.ClosePc.done
    ∧ (route.System.start.run route.racySchedule).pushers.map (fun t => t.pc)
        = [route.PushPc.done]
    ∧ 0 < (route.System.start.run route.racySchedule).reg.closed
    ∧ (route.System.start.run route.racySchedule).reg.sMap = [⟨1, 10, [7]⟩]
    ∧ (route.System.start.run route.racySchedule).events = [] := by
  decide

/-- A pushing thread that runs alone through its four statements does what
the sequential `Push` does. -/
theorem route_pusher_alone (reg : route.Registry) (c : route.CloseThread)
    (id : Nat) (srv : RouteInfo) (action : List Action) :
    (route.System.run
        { reg := reg, events := [], closer := c,
          pushers := [{ id := id, srv := srv, action := action, pc := .atInit }] }
        [some 0, some 0, some 0, some 0]).reg
      = reg.Push id srv action := by
  by_cases h : 0 < reg.init.closed
  · simp [route.System.run, route.System.step, route.PushThread.step, route.Registry.Push, h]
  · simp [route.System.run, route.System.step, route.PushThread.step, route.Registry.Push, h]

/-- The closing thread running alone through one pass of its loop and the
final `touch` does what the sequential `Close` does. -/
theorem route_closer_alone (reg : route.Registry) (h : AddUint64 reg.closed 1 ≠ 0) :
    reg.Close 1
      = some
          ((route.System.run
              { reg := reg, events := [],
                closer := { pc := .atLoadRev, last := 0, swapped := false }, pushers := [] }
              [none, none, none, none, none, none]).reg,
           (route.System.run
              { reg := reg, events := [],
                closer := { pc := .atLoadRev, last := 0, swapped := false }, pushers := [] }
              [none, none, none, none, none, none]).events) := by
  simp [route.Registry.Close, route.Registry.closeLoop, route_closePass_eq, h,
    route.System.run, route.System.step, route.CloseThread.step, route.Registry.Sync,
    BTree2D_Sync_nil, route_zero_init_sMap, CompareAndSwapUint64, route_init_rRev,
    route_init_closed]

end astranet
